import Mathlib

/-!
# RemoteBuild: the remote build pipeline of `remotebuild/main.go`

A shallow embedding of the program: the Go standard-library path functions it
calls, the external world it talks to (local files, the remote host, the two
connections) as explicit state plus an environment of outcomes, and the
functions of `main.go` as state-passing definitions over that world.
-/

namespace RemoteBuild

/-! ## Go values -/

/-- A Go `error` value: `none` is `nil`, `some msg` is a non-nil error. -/
abbrev GoError := Option String

/-- File contents, a sequence of byte values. -/
abbrev Bytes := List Nat

/-- The regular files of a file system: what each path holds, `none` when
nothing can be read there. -/
abbrev FileTable := String → Option Bytes

/-- Store `b` at path `p`, leaving every other path alone. -/
def FileTable.write (t : FileTable) (p : String) (b : Bytes) : FileTable :=
  fun q => if q = p then some b else t q

/-! ## The Go library functions used by `main.go`

`strings.Split`, `strings.HasSuffix`, package `path`, and package
`path/filepath` for a host whose separator is the slash. -/

/-- The runs of characters between occurrences of `sep`, empty runs included;
a list of one empty run for the empty input. -/
def splitOnChar (sep : Char) : List Char → List (List Char)
  | [] => [[]]
  | c :: cs =>
    if c = sep then [] :: splitOnChar sep cs
    else
      match splitOnChar sep cs with
      | [] => [[c]]
      | e :: es => (c :: e) :: es

/-- Go `strings.Split(s, ",")`. -/
def stringsSplitComma (s : String) : List String :=
  (splitOnChar ',' s.data).map String.mk

/-- Go `strings.HasSuffix`. -/
def stringsHasSuffix (s suffix : String) : Bool :=
  suffix.data.isSuffixOf s.data

/-- One element of a path meets the element stack of `path.Clean`: empty and
`.` elements are dropped, `..` removes the last ordinary element, is dropped at
the root of a rooted path and is kept otherwise, any other element is pushed.
The stack has its last element first. -/
def cleanStep (rooted : Bool) (stack : List (List Char)) (e : List Char) :
    List (List Char) :=
  if e = [] ∨ e = ['.'] then stack
  else if e = ['.', '.'] then
    match stack with
    | [] => if rooted then [] else [e]
    | top :: rest =>
      if top = ['.', '.'] then (if rooted then stack else e :: stack) else rest
  else e :: stack

/-- The elements joined with single slashes. -/
def joinSlash : List (List Char) → List Char
  | [] => []
  | [e] => e
  | e :: es => e ++ '/' :: joinSlash es

/-- The element stack `path.Clean` ends with on the path `p`. -/
def cleanStack (rooted : Bool) (p : List Char) : List (List Char) :=
  (splitOnChar '/' p).foldl (cleanStep rooted) []

/-- Go `path.Clean` on the characters of a path: the shortest equivalent path,
`.` for the empty one. -/
def cleanChars (p : List Char) : List Char :=
  match p with
  | [] => ['.']
  | c :: _ =>
    let rooted := decide (c = '/')
    let body := joinSlash (cleanStack rooted p).reverse
    if rooted then '/' :: body
    else if body = [] then ['.'] else body

/-- Go `path.Clean`. -/
def pathClean (p : String) : String := String.mk (cleanChars p.data)

/-- Go `path.Split` on characters: everything up to and including the last
slash, and what follows it. -/
def splitLastSlash (p : List Char) : List Char × List Char :=
  let file := (p.reverse.takeWhile (fun c => c != '/')).reverse
  (p.take (p.length - file.length), file)

/-- Go `path.Dir`: the cleaned directory part of `path.Split`. -/
def pathDir (p : String) : String :=
  String.mk (cleanChars (splitLastSlash p.data).1)

/-- Go `path.Base` on characters. -/
def baseChars (p : List Char) : List Char :=
  if p = [] then ['.']
  else
    let q := (p.reverse.dropWhile (fun c => c == '/')).reverse
    let r := (splitLastSlash q).2
    if r = [] then ['/'] else r

/-- Go `path.Base`: the last element of the path. -/
def pathBase (p : String) : String := String.mk (baseChars p.data)

/-- The strings joined with single slashes. -/
def joinStrings : List String → String
  | [] => ""
  | [e] => e
  | e :: es => e ++ "/" ++ joinStrings es

/-- Go `path.Join`: the non-empty elements joined by slashes and cleaned; the
empty string when there is none. -/
def pathJoin (elem : List String) : String :=
  match elem.filter (fun e => e ≠ "") with
  | [] => ""
  | es => pathClean (joinStrings es)

/-- Go `filepath.Join` where the separator is the slash: everything from the
first non-empty element on, joined and cleaned. -/
def filepathJoin (elem : List String) : String :=
  match elem.dropWhile (fun e => e = "") with
  | [] => ""
  | es => pathClean (joinStrings es)

/-- Go `filepath.Base` where the separator is the slash. -/
def filepathBase (p : String) : String := pathBase p

/-- Go `filepath.ToSlash` where the separator is the slash: the identity. -/
def filepathToSlash (p : String) : String := p

/-- The scan of `filepath.Rel` over what is left of the cleaned base and
target: leading elements are dropped while they agree. Returns what is left of
each and the base element at which the scan broke off (empty when it ran to the
end of either path). -/
def relLoop : Nat → List Char → List Char → List Char × List Char × List Char
  | 0, b, t => (b, t, [])
  | fuel + 1, b, t =>
    if b = [] ∨ t = [] then (b, t, [])
    else
      let bw := b.takeWhile (fun c => c != '/')
      let tw := t.takeWhile (fun c => c != '/')
      if tw ≠ bw then (b, t, bw)
      else relLoop fuel ((b.drop bw.length).drop 1) ((t.drop tw.length).drop 1)

/-- Go `filepath.Rel` where the separator is the slash and there are no volume
names: the relative path and the error. -/
def filepathRel (basepath targpath : String) : String × GoError :=
  let base := cleanChars basepath.data
  let targ := cleanChars targpath.data
  if targ = base then (".", none)
  else
    let base := if base = ['.'] then [] else base
    let baseSlashed := decide (base.head? = some '/')
    let targSlashed := decide (targ.head? = some '/')
    if baseSlashed ≠ targSlashed then
      ("", some ("Rel: can't make " ++ targpath ++ " relative to " ++ basepath))
    else
      match relLoop (base.length + 1) base targ with
      | (b, t, bw) =>
        if bw = ['.', '.'] then
          ("", some ("Rel: can't make " ++ targpath ++ " relative to " ++ basepath))
        else if b ≠ [] then
          let seps := b.count '/'
          let up := ['.', '.'] ++ (List.replicate seps ['/', '.', '.']).flatten
          (String.mk (if t ≠ [] then up ++ '/' :: t else up), none)
        else (String.mk t, none)

/-! ## The world outside the program -/

/-- The settings record read from the configuration document (`Config`). -/
structure Config where
  host : String
  user : String
  key : String
  targetDir : String
deriving DecidableEq

/-- The parsed command-line flags of `main`, one field per flag. -/
structure Flags where
  config : String
  host : String
  user : String
  key : String
  targetDir : String
  src : String
  remoteDir : String
  buildType : String
  cmakeArgs : String
  artifacts : String
deriving DecidableEq

/-- What `info.Mode()` says an entry of the local tree is. -/
inductive FileMode where
  | dir
  | regular
  | other
deriving DecidableEq

/-- One call of the walk function by `filepath.Walk`: the path of the entry,
its mode, and the error the walk met on it (`none` for no error). -/
structure Visit where
  localPath : String
  mode : FileMode
  err : GoError
deriving DecidableEq

/-- Go `info.IsDir()`. -/
def Visit.isDir (v : Visit) : Bool := decide (v.mode = FileMode.dir)

/-- The calls the program makes on the outside world, in the order made. -/
inductive Action where
  | sshConnect (host user keyPath : String)
  | run (cmd : String)
  | upload (localPath remotePath : String)
  | download (remotePath localPath : String)
  | closeShell
  | closeTransfer
deriving DecidableEq

/-- The file system of the remote host: what its regular files hold and which
paths are directories. -/
structure Remote where
  files : FileTable
  dirs : String → Bool

/-- The state of the outside world: the readable files of the local machine,
the regular files and the directories of the remote host, which of the two
connections are open, the calls made so far and the lines printed so far. -/
structure World where
  localFS : FileTable
  remoteFS : FileTable
  remoteDirs : String → Bool
  shellOpen : Bool
  transferOpen : Bool
  trace : List Action
  stdout : List String

/-- How the outside world answers. The answers to remote commands and file
transfers may depend on when the call is made: they are indexed by the number
of calls made before it. -/
structure Env where
  /-- Result of `yaml.Unmarshal` into a `Config`, `none` for an error. -/
  yamlUnmarshal : Bytes → Option Config
  /-- Result of `json.Unmarshal` into a `Config`, `none` for an error. -/
  jsonUnmarshal : Bytes → Option Config
  /-- Error of `scpclient.PrivateKey(user, keyPath, ...)`. -/
  privateKey : String → String → GoError
  /-- Error of `scpClient.Connect()` to the given address. -/
  scpConnect : String → GoError
  /-- Error of `ssh.ParsePrivateKey`. -/
  parsePrivateKey : Bytes → GoError
  /-- Error of `ssh.Dial("tcp", addr, ...)` for the given address and user. -/
  sshDial : String → String → GoError
  /-- Error of `client.NewSession()`. -/
  newSession : Nat → GoError
  /-- Error of `session.Start(cmd)`. -/
  start : Nat → String → GoError
  /-- Exit status the remote process delivers, `none` when it ends without
  one. -/
  exitStatus : Nat → String → Option Nat
  /-- What running the command does to the files and directories of the
  remote host. -/
  effect : Nat → String → Remote → Remote
  /-- The entries of the tree under the given root in the order `filepath.Walk`
  comes to them, each with the error the walk meets on it. -/
  walk : String → List Visit
  /-- Error of `scpClient.CopyFile`. -/
  copyFile : Nat → GoError
  /-- Error of `os.Create`. -/
  create : Nat → String → GoError
  /-- Error of `scpClient.CopyFromRemote`. -/
  copyFromRemote : Nat → GoError

/-- How the process ends. -/
inductive Outcome where
  | exit (code : Nat)
  | fatal (err : String)
  | done
deriving DecidableEq

/-- Exit status of the process: `os.Exit(code)`, `log.Fatal` (status 1), or a
return from `main` (status 0). -/
def Outcome.status : Outcome → Nat
  | Outcome.exit code => code
  | Outcome.fatal _ => 1
  | Outcome.done => 0

/-- The file system of the remote host in a state of the world. -/
def World.remote (w : World) : Remote := { files := w.remoteFS, dirs := w.remoteDirs }

/-- Record a call. -/
def World.log (w : World) (a : Action) : World :=
  { w with trace := w.trace ++ [a] }

/-- Write to standard output (`fmt.Println`, `fmt.Printf`). -/
def World.print (w : World) (s : String) : World :=
  { w with stdout := w.stdout ++ [s] }

/-- The line `main` prints last on a run that returns. -/
def doneReport : String := "[Done] Remote build finished successfully\n"

/-! ## The functions of `main.go` -/

/-- The function `loadConfig`: read the file, parse it as YAML when the path
ends in `.yaml` or `.yml` and as JSON otherwise. `none` stands for the return
`(nil, err)`. -/
def loadConfig (env : Env) (w : World) (path : String) : Option Config :=
  match w.localFS path with
  | none => none
  | some b =>
    if stringsHasSuffix path ".yaml" || stringsHasSuffix path ".yml" then
      env.yamlUnmarshal b
    else env.jsonUnmarshal b

/-- The function `sshConnect`: the file-transfer connection is opened first,
then the key is read and parsed again and the shell connection is dialled.
Every failure returns the error at once. -/
def sshConnect (env : Env) (w : World) (host user keyPath : String) :
    GoError × World :=
  let w0 := w.log (Action.sshConnect host user keyPath)
  match env.privateKey user keyPath with
  | some e => (some e, w0)
  | none =>
    match env.scpConnect (host ++ ":22") with
    | some e => (some e, w0)
    | none =>
      let w1 := { w0 with transferOpen := true }
      match w1.localFS keyPath with
      | none => (some ("open " ++ keyPath ++ ": cannot read file"), w1)
      | some keyFile =>
        match env.parsePrivateKey keyFile with
        | some e => (some e, w1)
        | none =>
          match env.sshDial (host ++ ":22") user with
          | some e => (some e, w1)
          | none => (none, { w1 with shellOpen := true })

/-- Go `session.Wait()` for a session whose streams are pipes: `nil` exactly
when the remote process delivered exit status zero. -/
def sessionWait (status : Option Nat) : GoError :=
  match status with
  | some 0 => none
  | some n => some ("Process exited with status " ++ toString n)
  | none => some "wait: remote command exited without exit status or exit signal"

/-- The function `runSSHCommandLive`: open a session, start the command, wait
for it. -/
def runSSHCommandLive (env : Env) (w : World) (cmd : String) : GoError × World :=
  let k := w.trace.length
  let w1 := w.log (Action.run cmd)
  match env.newSession k with
  | some e => (some e, w1)
  | none =>
    match env.start k cmd with
    | some e => (some e, w1)
    | none =>
      (sessionWait (env.exitStatus k cmd),
        { w1 with
          remoteFS := (env.effect k cmd w1.remote).files
          remoteDirs := (env.effect k cmd w1.remote).dirs })

/-- Where the scp sink on the remote host stores a file sent to `remotePath`
under the name `path.Base(remotePath)`, as `CopyFile` sends it: at that path,
or inside it under that name when the path is an existing directory. -/
def scpTarget (dirs : String → Bool) (remotePath : String) : String :=
  if dirs remotePath then
    (if remotePath = "/" then remotePath else remotePath ++ "/") ++ pathBase remotePath
  else remotePath

/-- The function `uploadFile`: open the local file and copy it to the remote
path. -/
def uploadFile (env : Env) (w : World) (localPath remotePath : String) :
    GoError × World :=
  let k := w.trace.length
  let w1 := w.log (Action.upload localPath remotePath)
  match w.localFS localPath with
  | none => (some ("open " ++ localPath ++ ": cannot open file"), w1)
  | some b =>
    match env.copyFile k with
    | some e => (some e, w1)
    | none =>
      (none,
        { w1 with remoteFS := w1.remoteFS.write (scpTarget w1.remoteDirs remotePath) b })

/-- The function `downloadFile`: create the local file and copy the remote
file into it. -/
def downloadFile (env : Env) (w : World) (remotePath localPath : String) :
    GoError × World :=
  let k := w.trace.length
  let w1 := w.log (Action.download remotePath localPath)
  match env.create k localPath with
  | some e =>
    (some e, w1.print ("Failed to create local file " ++ localPath ++ ": " ++ e ++ "\n"))
  | none =>
    let w2 := { w1 with localFS := w1.localFS.write localPath [] }
    match env.copyFromRemote k, w2.remoteFS remotePath with
    | none, some b => (none, { w2 with localFS := w2.localFS.write localPath b })
    | some e, _ => (some e, w2)
    | none, none => (some ("scp: " ++ remotePath ++ ": No such file or directory"), w2)

/-- The value a connection field takes in `main`: the flag, or the field of
the configuration when the flag is empty and a configuration was loaded. -/
def mergeField (flag : String) (cfg : Option Config) (field : Config → String) :
    String :=
  match cfg with
  | some c => if flag = "" then field c else flag
  | none => flag

/-- The remote path `main` uploads a visited entry to. -/
def destination (src remoteDir : String) (v : Visit) : String :=
  pathJoin [remoteDir, filepathToSlash (filepathRel src v.localPath).1]

/-- The walk function `main` passes to `filepath.Walk`. -/
def walkFn (env : Env) (src remoteDir : String) (w : World) (v : Visit) :
    GoError × World :=
  match v.err with
  | some e => (some e, w)
  | none =>
    if v.isDir then (none, w)
    else
      let rel := (filepathRel src v.localPath).1
      let remotePath := pathJoin [remoteDir, filepathToSlash rel]
      let dir := pathDir remotePath
      let w1 := (runSSHCommandLive env w ("mkdir -p " ++ dir)).2
      let w2 := (uploadFile env w1 v.localPath remotePath).2
      (none, w2)

/-- Go `filepath.Walk` as `main` uses it: the walk function is called on each
visited entry in turn, and the first error it returns ends the walk. -/
def filepathWalk (fn : World → Visit → GoError × World) :
    World → List Visit → GoError × World
  | w, [] => (none, w)
  | w, v :: vs =>
    match fn w v with
    | (some e, w1) => (some e, w1)
    | (none, w1) => filepathWalk fn w1 vs

/-- The tree upload of `main`: the walk of `src` with `walkFn`. -/
def uploadTree (env : Env) (src remoteDir : String) (w : World) : GoError × World :=
  filepathWalk (walkFn env src remoteDir) w (env.walk src)

/-- The loop of `main` over the artifact names. -/
def downloadArtifacts (env : Env) (remoteBuildDir t : String) :
    World → List String → World
  | w, [] => w
  | w, art :: arts =>
    let remotePath := pathJoin [remoteBuildDir, art]
    let localPath := filepathJoin [t, filepathBase art]
    downloadArtifacts env remoteBuildDir t
      (downloadFile env w remotePath localPath).2 arts

/-- The artifact names `main` works on: none for the empty flag, else the
flag split at its commas. -/
def artifactNames (artifactsList : String) : List String :=
  if artifactsList ≠ "" then stringsSplitComma artifactsList else []

/-- The body of `main` once the session is established, up to the last line it
prints; `t` is the merged target directory. No result of any call is looked
at. -/
def pipeline (env : Env) (f : Flags) (t : String) (w : World) : World :=
  let remoteBuildDir := pathJoin [f.remoteDir, "build"]
  let w := w.print ("remoteBuildDir:%!(EXTRA string=" ++ remoteBuildDir ++ ")")
  let w := w.print ("mkdir -p " ++ remoteBuildDir)
  let w := (runSSHCommandLive env w ("mkdir -p " ++ remoteBuildDir)).2
  let w := (uploadTree env f.src f.remoteDir w).2
  let w := w.print "[3] Configuring CMake project remotely...\n"
  let w := (runSSHCommandLive env w
    ("cd " ++ remoteBuildDir ++ " && cmake .. -DCMAKE_BUILD_TYPE=" ++ f.buildType
      ++ " " ++ f.cmakeArgs)).2
  let w := w.print "[4] Building project remotely...\n"
  let w := (runSSHCommandLive env w
    ("cd " ++ remoteBuildDir ++ " && cmake --build . -- -j$(nproc)")).2
  let artifacts := artifactNames f.artifacts
  let w :=
    if artifacts.length > 0 then downloadArtifacts env remoteBuildDir t w artifacts
    else w.print
      "No artifacts specified, you can modify code to download whole build dir if needed\n"
  w.print doneReport

/-- The deferred calls of `main`, run when it returns: the file-transfer
connection is closed, then the shell connection. -/
def runDeferred (w : World) : World :=
  let w := { w.log Action.closeTransfer with transferOpen := false }
  { w.log Action.closeShell with shellOpen := false }

/-- The function `main`. -/
def main (env : Env) (f : Flags) (w : World) : Outcome × World :=
  if f.src = "" ∨ f.remoteDir = "" then
    (Outcome.exit 1, w.print "src and remote-dir are required\n")
  else
    let cfg := loadConfig env w f.config
    let h := mergeField f.host cfg Config.host
    let u := mergeField f.user cfg Config.user
    let k := mergeField f.key cfg Config.key
    let t := mergeField f.targetDir cfg Config.targetDir
    if h = "" ∨ u = "" ∨ k = "" ∨ t = "" then
      (Outcome.exit 1,
        w.print "host, user, key, target-dir must be specified via flags or config\n")
    else
      let w := w.print
        ("Using host=" ++ h ++ " user=" ++ u ++ " key=" ++ k ++ " target-dir=" ++ t ++ "\n")
      match sshConnect env w h u k with
      | (some e, w1) => (Outcome.fatal e, w1)
      | (none, w1) => (Outcome.done, runDeferred (pipeline env f t w1))

/-! ## Specification vocabulary -/

/-- The world a run starts in: the given files, no connection open, nothing
called or printed yet. -/
def World.init (localFS : FileTable) (remote : Remote) : World :=
  { localFS := localFS, remoteFS := remote.files, remoteDirs := remote.dirs,
    shellOpen := false, transferOpen := false, trace := [], stdout := [] }

/-- Whether `mkdir -p d` can make `p` a directory: `p` is `d` itself or a
directory that `d` lies under. -/
def mkdirReaches (d p : String) : Bool :=
  p == d || (p.data ++ ['/']).isPrefixOf d.data

/-- The directory a command of the form `mkdir -p d` names. -/
def mkdirTarget (cmd : String) : Option String :=
  if ("mkdir -p ".data).isPrefixOf cmd.data then some (String.mk (cmd.data.drop 9))
  else none

/-- The calls the tree upload is expected to make for a sequence of visited
entries: for each entry that is no directory, the creation of the parent of its
destination and then its transfer. -/
def uploadActions (src remoteDir : String) : List Visit → List Action
  | [] => []
  | v :: vs =>
    if v.isDir then uploadActions src remoteDir vs
    else
      Action.run ("mkdir -p " ++ pathDir (destination src remoteDir v)) ::
        Action.upload v.localPath (destination src remoteDir v) ::
        uploadActions src remoteDir vs

/-- The visited entries up to the first one the walk reports an error on. -/
def visitedBeforeError (visits : List Visit) : List Visit :=
  visits.takeWhile (fun v => v.err.isNone)

/-- The download expected for one artifact name. -/
def downloadAction (remoteBuildDir t : String) (name : String) : Action :=
  Action.download (pathJoin [remoteBuildDir, name]) (filepathJoin [t, filepathBase name])

/-- The remote build directory of a run. -/
def remoteBuildDirOf (f : Flags) : String := pathJoin [f.remoteDir, "build"]

/-- The command that creates the remote build directory. -/
def mkdirCommand (f : Flags) : String := "mkdir -p " ++ remoteBuildDirOf f

/-- The configure command. -/
def configureCommand (f : Flags) : String :=
  "cd " ++ remoteBuildDirOf f ++ " && cmake .. -DCMAKE_BUILD_TYPE=" ++ f.buildType
    ++ " " ++ f.cmakeArgs

/-- The build command. -/
def buildCommand (f : Flags) : String :=
  "cd " ++ remoteBuildDirOf f ++ " && cmake --build . -- -j$(nproc)"

/-- The four merged connection fields of a run. -/
def mergedHost (env : Env) (f : Flags) (w : World) : String :=
  mergeField f.host (loadConfig env w f.config) Config.host

/-- The merged user. -/
def mergedUser (env : Env) (f : Flags) (w : World) : String :=
  mergeField f.user (loadConfig env w f.config) Config.user

/-- The merged key path. -/
def mergedKey (env : Env) (f : Flags) (w : World) : String :=
  mergeField f.key (loadConfig env w f.config) Config.key

/-- The merged target directory. -/
def mergedTargetDir (env : Env) (f : Flags) (w : World) : String :=
  mergeField f.targetDir (loadConfig env w f.config) Config.targetDir

/-- The required parameters are all there: `src` and `remote-dir` are set and
the four merged connection fields are non-empty. -/
def requiredPresent (env : Env) (f : Flags) (w : World) : Prop :=
  f.src ≠ "" ∧ f.remoteDir ≠ "" ∧ mergedHost env f w ≠ "" ∧ mergedUser env f w ≠ "" ∧
    mergedKey env f w ≠ "" ∧ mergedTargetDir env f w ≠ ""

instance (env : Env) (f : Flags) (w : World) : Decidable (requiredPresent env f w) := by
  unfold requiredPresent; infer_instance

/-- The line `main` prints before it connects. -/
def usingLine (env : Env) (f : Flags) (w : World) : String :=
  "Using host=" ++ mergedHost env f w ++ " user=" ++ mergedUser env f w ++ " key=" ++
    mergedKey env f w ++ " target-dir=" ++ mergedTargetDir env f w ++ "\n"

/-- The call of `sshConnect` that `main` makes. -/
def connectResult (env : Env) (f : Flags) (w : World) : GoError × World :=
  sshConnect env (w.print (usingLine env f w)) (mergedHost env f w) (mergedUser env f w)
    (mergedKey env f w)

/-- The run gets past session establishment: the required parameters are there
and `sshConnect` returns no error. -/
def sessionEstablished (env : Env) (f : Flags) (w : World) : Prop :=
  requiredPresent env f w ∧ (connectResult env f w).1 = none

instance (env : Env) (f : Flags) (w : World) : Decidable (sessionEstablished env f w) := by
  unfold sessionEstablished; infer_instance

/-- The calls a run makes after `sshConnect` has returned without error, as
the driver is written: create the build directory, upload the tree, configure,
build, download each artifact, close both connections. -/
def expectedCalls (env : Env) (f : Flags) (w : World) : List Action :=
  [Action.run (mkdirCommand f)] ++
    uploadActions f.src f.remoteDir (visitedBeforeError (env.walk f.src)) ++
    [Action.run (configureCommand f), Action.run (buildCommand f)] ++
    (artifactNames f.artifacts).map (downloadAction (remoteBuildDirOf f) (mergedTargetDir env f w)) ++
    [Action.closeTransfer, Action.closeShell]

/-- The error `runSSHCommandLive` returns for the command issued as call
number `k`. -/
def commandError (env : Env) (k : Nat) (cmd : String) : GoError :=
  match env.newSession k with
  | some e => some e
  | none =>
    match env.start k cmd with
    | some e => some e
    | none => sessionWait (env.exitStatus k cmd)

/-- Whether a call is a download. -/
def Action.isDownload : Action → Bool
  | Action.download _ _ => true
  | _ => false

/-! ## A concrete run -/

/-- Flags of a sample run: every connection field is given on the command
line, one artifact is asked for. -/
def demoFlags : Flags :=
  { config := "config.json", host := "build01", user := "dev",
    key := "/home/dev/.ssh/id_rsa", targetDir := "out", src := "proj",
    remoteDir := "/srv/demo", buildType := "Release", cmakeArgs := "-DWITH_TESTS=ON",
    artifacts := "out.bin" }

/-- The bytes of `hello`. -/
def helloBytes : Bytes := [104, 101, 108, 108, 111]

/-- The bytes of `world`. -/
def worldBytes : Bytes := [119, 111, 114, 108, 100]

/-- Local files of the sample run: the key, and a project with `a.txt` and
`sub/b.txt`. There is no configuration file. -/
def demoLocal : FileTable := fun p =>
  if p = "/home/dev/.ssh/id_rsa" then some [45, 45]
  else if p = "proj/a.txt" then some helloBytes
  else if p = "proj/sub/b.txt" then some worldBytes
  else none

/-- The remote host before the sample run: the remote root exists and holds one
file that is not part of the project. -/
def demoRemote : Remote :=
  { files := fun p => if p = "/srv/demo/old.txt" then some [111, 108, 100] else none
    dirs := fun p => p == "/" || p == "/srv" || p == "/srv/demo" }

/-- The entries `filepath.Walk` visits in the sample project, in lexical
order. -/
def demoVisits : List Visit :=
  [ { localPath := "proj", mode := FileMode.dir, err := none },
    { localPath := "proj/a.txt", mode := FileMode.regular, err := none },
    { localPath := "proj/sub", mode := FileMode.dir, err := none },
    { localPath := "proj/sub/b.txt", mode := FileMode.regular, err := none } ]

/-- An outside world in which everything succeeds: `mkdir -p d` makes `d` and
the directories above it, and the build command leaves `out.bin` in the remote
build directory. -/
def demoEnv : Env :=
  { yamlUnmarshal := fun _ => none
    jsonUnmarshal := fun _ => none
    privateKey := fun _ _ => none
    scpConnect := fun _ => none
    parsePrivateKey := fun _ => none
    sshDial := fun _ _ => none
    newSession := fun _ => none
    start := fun _ _ => none
    exitStatus := fun _ _ => some 0
    effect := fun _ cmd r =>
      match mkdirTarget cmd with
      | some d => { files := r.files, dirs := fun p => r.dirs p || mkdirReaches d p }
      | none =>
        if cmd = "cd /srv/demo/build && cmake --build . -- -j$(nproc)" then
          { files := r.files.write "/srv/demo/build/out.bin" [88], dirs := r.dirs }
        else r
    walk := fun root =>
      if root = "proj" then demoVisits
      else [{ localPath := root, mode := FileMode.other, err := some "lstat: no such file" }]
    copyFile := fun _ => none
    create := fun _ _ => none
    copyFromRemote := fun _ => none }

/-- The sample world with every remote command exiting with status 1. -/
def failingEnv : Env := { demoEnv with exitStatus := fun _ _ => some 1 }

/-- The sample world with the shell connection refused after the file-transfer
connection has been opened. -/
def dialRefusedEnv : Env :=
  { demoEnv with sshDial := fun _ _ => some "dial tcp: connection refused" }

/-- The world the sample run starts in. -/
def demoWorld : World := World.init demoLocal demoRemote

/-- What the element stack of `path.Clean` looks like at every moment: its
elements are non-empty, are not `.`, hold no slash, and a `..` element lies
only on top of nothing or of another `..`, and only when the path is not
rooted. -/
def stackOK (rooted : Bool) : List (List Char) → Prop
  | [] => True
  | top :: rest =>
    top ≠ [] ∧ top ≠ ['.'] ∧ '/' ∉ top ∧
      (top = ['.', '.'] → rooted = false ∧ ∀ e ∈ rest.head?, e = ['.', '.']) ∧
      stackOK rooted rest

/-- The destinations of the entries of a walk that are no directories, in
visit order. -/
def destinations (src remoteDir : String) (visits : List Visit) : List String :=
  (visits.filter (fun v => !v.isDir)).map (destination src remoteDir)

/-- The remote files once every entry of the walk that is no directory and can
be read has been stored at its destination, in visit order. -/
def mirrored (src remoteDir : String) (localFS : FileTable) :
    FileTable → List Visit → FileTable
  | t, [] => t
  | t, v :: vs =>
    if v.isDir then mirrored src remoteDir localFS t vs
    else
      match localFS v.localPath with
      | some b => mirrored src remoteDir localFS (t.write (destination src remoteDir v) b) vs
      | none => mirrored src remoteDir localFS t vs

/-- Every directory creation succeeds: a `mkdir -p d` command returns no error
whenever it is run, it leaves the regular files of the remote host as they
are, and it makes no path a directory other than `d` and the directories `d`
lies under. -/
def mkdirSucceeds (env : Env) : Prop :=
  ∀ k d (r : Remote), commandError env k ("mkdir -p " ++ d) = none ∧
    (env.effect k ("mkdir -p " ++ d) r).files = r.files ∧
    ∀ p, (env.effect k ("mkdir -p " ++ d) r).dirs p = true →
      r.dirs p = true ∨ mkdirReaches d p = true

/-- No destination of the walk is a directory on the remote host when its
transfer is made: none is a directory at the start, and none is made one by the
creation of the parent of a destination. -/
def destinationsFree (src remoteDir : String) (dirs : String → Bool)
    (visits : List Visit) : Prop :=
  (∀ p ∈ destinations src remoteDir visits, dirs p = false) ∧
    ∀ p ∈ destinations src remoteDir visits, ∀ q ∈ destinations src remoteDir visits,
      mkdirReaches (pathDir q) p = false

instance (src remoteDir : String) (dirs : String → Bool) (visits : List Visit) :
    Decidable (destinationsFree src remoteDir dirs visits) := by
  unfold destinationsFree; infer_instance

/-- The characters of the pieces with `sep` between them. -/
def joinChars (sep : Char) : List (List Char) → List Char
  | [] => []
  | [e] => e
  | e :: es => e ++ sep :: joinChars sep es

/-- Every file transfer of the walk succeeds: each entry that is no directory
can be opened, and no copy to the remote host fails. -/
def transferSucceeds (env : Env) (w : World) (visits : List Visit) : Prop :=
  (∀ k, env.copyFile k = none) ∧
    ∀ v ∈ visits, v.isDir = false → (w.localFS v.localPath).isSome = true

/-- The sample flags asking for two artifacts, the first in a subdirectory of
the build directory. -/
def demoFlagsTwoArtifacts : Flags := { demoFlags with artifacts := "bin/app,out.bin" }

/-- The world the tree upload of the sample run starts in: the remote build
directory has been created. -/
def demoUploadWorld : World :=
  (runSSHCommandLive demoEnv demoWorld "mkdir -p /srv/demo/build").2

/-- Local files of a project with a regular file named `build`, a directory
`locked` that cannot be read, and `sub/b.txt`. -/
def clashLocal : FileTable := fun p =>
  if p = "proj/a.txt" then some helloBytes
  else if p = "proj/build" then some [66]
  else if p = "proj/sub/b.txt" then some worldBytes
  else none

/-- The entries of that project in the order of the walk; the walk meets an
error on `locked`. -/
def clashVisits : List Visit :=
  [ { localPath := "proj", mode := FileMode.dir, err := none },
    { localPath := "proj/a.txt", mode := FileMode.regular, err := none },
    { localPath := "proj/build", mode := FileMode.regular, err := none },
    { localPath := "proj/locked", mode := FileMode.dir,
      err := some "open proj/locked: permission denied" },
    { localPath := "proj/sub", mode := FileMode.dir, err := none },
    { localPath := "proj/sub/b.txt", mode := FileMode.regular, err := none } ]

/-- The sample outside world with that project under `proj`. -/
def clashEnv : Env := { demoEnv with walk := fun _ => clashVisits }

/-- The world the tree upload of that project starts in: the remote build
directory has been created. -/
def clashWorld : World :=
  (runSSHCommandLive clashEnv (World.init clashLocal demoRemote)
    "mkdir -p /srv/demo/build").2

/-- A configuration document of the sample run. -/
def demoConfig : Config :=
  { host := "farm02", user := "ci", key := "/etc/ci/key", targetDir := "artifacts" }

/-- The sample flags with no artifact asked for. -/
def demoFlagsNoArtifacts : Flags := { demoFlags with artifacts := "" }

/-- The line `main` prints when no artifact is asked for. -/
def noArtifactsLine : String :=
  "No artifacts specified, you can modify code to download whole build dir if needed\n"

/-! ## Lemmas on the single calls -/

theorem runSSHCommandLive_frame (env : Env) (w : World) (cmd : String) :
    (runSSHCommandLive env w cmd).2.trace = w.trace ++ [Action.run cmd] ∧
    (runSSHCommandLive env w cmd).2.localFS = w.localFS ∧
    (runSSHCommandLive env w cmd).2.stdout = w.stdout ∧
    (runSSHCommandLive env w cmd).2.shellOpen = w.shellOpen ∧
    (runSSHCommandLive env w cmd).2.transferOpen = w.transferOpen := by
  simp only [runSSHCommandLive]
  split
  · simp [World.log]
  · split <;> simp [World.log]

theorem runSSHCommandLive_error (env : Env) (w : World) (cmd : String) :
    (runSSHCommandLive env w cmd).1 = commandError env w.trace.length cmd := by
  simp only [runSSHCommandLive, commandError]
  split
  · rfl
  · split <;> rfl

theorem relLoop_fuel (fuel : Nat) :
    ∀ (b t : List Char) (more : Nat), b.length < fuel →
      relLoop (fuel + more) b t = relLoop fuel b t := by
  induction fuel with
  | zero => intro b t more h; omega
  | succ n ih =>
    intro b t more h
    have hn : n + 1 + more = (n + more) + 1 := by omega
    rw [hn]
    simp only [relLoop]
    by_cases hstop : b = [] ∨ t = []
    · simp [hstop]
    · simp only [hstop, if_false]
      split
      · rfl
      · apply ih
        have hb : b ≠ [] := fun e => hstop (Or.inl e)
        have hlen : 0 < b.length := List.length_pos.mpr hb
        simp only [List.length_drop]
        omega

theorem uploadFile_frame (env : Env) (w : World) (lp rp : String) :
    (uploadFile env w lp rp).2.trace = w.trace ++ [Action.upload lp rp] ∧
    (uploadFile env w lp rp).2.localFS = w.localFS ∧
    (uploadFile env w lp rp).2.stdout = w.stdout ∧
    (uploadFile env w lp rp).2.shellOpen = w.shellOpen ∧
    (uploadFile env w lp rp).2.transferOpen = w.transferOpen := by
  simp only [uploadFile]
  split
  · simp [World.log]
  · split <;> simp [World.log]

theorem downloadFile_frame (env : Env) (w : World) (rp lp : String) :
    (downloadFile env w rp lp).2.trace = w.trace ++ [Action.download rp lp] ∧
    (downloadFile env w rp lp).2.shellOpen = w.shellOpen ∧
    (downloadFile env w rp lp).2.transferOpen = w.transferOpen := by
  simp only [downloadFile]
  split
  · simp [World.log, World.print]
  · split <;> simp [World.log]

theorem walkFn_frame (env : Env) (src remoteDir : String) (w : World) (v : Visit)
    (hv : v.err = none) :
    (walkFn env src remoteDir w v).1 = none ∧
    (walkFn env src remoteDir w v).2.trace = w.trace ++ uploadActions src remoteDir [v] ∧
    (walkFn env src remoteDir w v).2.localFS = w.localFS ∧
    (walkFn env src remoteDir w v).2.stdout = w.stdout ∧
    (walkFn env src remoteDir w v).2.shellOpen = w.shellOpen ∧
    (walkFn env src remoteDir w v).2.transferOpen = w.transferOpen := by
  simp only [walkFn, hv, uploadActions]
  by_cases hd : v.isDir = true
  · simp [hd]
  · simp only [hd, Bool.false_eq_true, if_false]
    have h1 := runSSHCommandLive_frame env w
      ("mkdir -p " ++ pathDir (pathJoin [remoteDir, filepathToSlash (filepathRel src v.localPath).1]))
    have h2 := uploadFile_frame env (runSSHCommandLive env w
      ("mkdir -p " ++ pathDir (pathJoin [remoteDir, filepathToSlash (filepathRel src v.localPath).1]))).2
      v.localPath (pathJoin [remoteDir, filepathToSlash (filepathRel src v.localPath).1])
    simp [h1, h2, destination]

theorem walkFn_error (env : Env) (src remoteDir : String) (w : World) (v : Visit)
    (e : String) (hv : v.err = some e) :
    walkFn env src remoteDir w v = (some e, w) := by
  simp [walkFn, hv]

theorem uploadActions_cons (src remoteDir : String) (v : Visit) (vs : List Visit) :
    uploadActions src remoteDir (v :: vs) =
      uploadActions src remoteDir [v] ++ uploadActions src remoteDir vs := by
  simp only [uploadActions]
  split <;> simp

theorem filepathWalk_frame (env : Env) (src remoteDir : String) (visits : List Visit) :
    ∀ w : World,
    (filepathWalk (walkFn env src remoteDir) w visits).2.trace =
      w.trace ++ uploadActions src remoteDir (visitedBeforeError visits) ∧
    (filepathWalk (walkFn env src remoteDir) w visits).2.localFS = w.localFS ∧
    (filepathWalk (walkFn env src remoteDir) w visits).2.stdout = w.stdout ∧
    (filepathWalk (walkFn env src remoteDir) w visits).2.shellOpen = w.shellOpen ∧
    (filepathWalk (walkFn env src remoteDir) w visits).2.transferOpen = w.transferOpen := by
  induction visits with
  | nil => intro w; simp [filepathWalk, visitedBeforeError, uploadActions]
  | cons v vs ih =>
    intro w
    rcases hv : v.err with _ | e
    · obtain ⟨h1, h2, h3, h4, h5, h6⟩ := walkFn_frame env src remoteDir w v hv
      have hw : walkFn env src remoteDir w v = (none, (walkFn env src remoteDir w v).2) :=
        Prod.ext h1 rfl
      have hstep : filepathWalk (walkFn env src remoteDir) w (v :: vs) =
          filepathWalk (walkFn env src remoteDir) (walkFn env src remoteDir w v).2 vs := by
        rw [filepathWalk, hw]
      have hvis : visitedBeforeError (v :: vs) = v :: visitedBeforeError vs := by
        simp [visitedBeforeError, List.takeWhile, hv]
      rw [hstep, hvis, uploadActions_cons]
      obtain ⟨i1, i2, i3, i4, i5⟩ := ih (walkFn env src remoteDir w v).2
      refine ⟨?_, ?_, ?_, ?_, ?_⟩
      · rw [i1, h2, List.append_assoc]
      · rw [i2, h3]
      · rw [i3, h4]
      · rw [i4, h5]
      · rw [i5, h6]
    · have hstep : filepathWalk (walkFn env src remoteDir) w (v :: vs) = (some e, w) := by
        rw [filepathWalk, walkFn_error env src remoteDir w v e hv]
      have hvis : visitedBeforeError (v :: vs) = [] := by
        simp [visitedBeforeError, List.takeWhile, hv]
      rw [hstep, hvis]
      simp [uploadActions]

theorem downloadArtifacts_frame (env : Env) (b t : String) (names : List String) :
    ∀ w : World,
    (downloadArtifacts env b t w names).trace = w.trace ++ names.map (downloadAction b t) ∧
    (downloadArtifacts env b t w names).shellOpen = w.shellOpen ∧
    (downloadArtifacts env b t w names).transferOpen = w.transferOpen := by
  induction names with
  | nil => intro w; simp [downloadArtifacts]
  | cons n ns ih =>
    intro w
    obtain ⟨h1, h2, h3⟩ := downloadFile_frame env w (pathJoin [b, n]) (filepathJoin [t, filepathBase n])
    obtain ⟨i1, i2, i3⟩ := ih (downloadFile env w (pathJoin [b, n]) (filepathJoin [t, filepathBase n])).2
    simp only [downloadArtifacts]
    refine ⟨?_, ?_, ?_⟩
    · rw [i1, h1]; simp [downloadAction]
    · rw [i2, h2]
    · rw [i3, h3]

/-! ## Lemmas on the driver -/

theorem sshConnect_trace (env : Env) (w : World) (h u k : String) :
    (sshConnect env w h u k).2.trace = w.trace ++ [Action.sshConnect h u k] ∧
    (sshConnect env w h u k).2.localFS = w.localFS ∧
    (sshConnect env w h u k).2.remoteFS = w.remoteFS ∧
    (sshConnect env w h u k).2.stdout = w.stdout := by
  simp only [sshConnect]
  repeat' split
  all_goals simp [World.log]

theorem sshConnect_ok (env : Env) (w : World) (h u k : String)
    (hok : (sshConnect env w h u k).1 = none) :
    (sshConnect env w h u k).2.shellOpen = true ∧
    (sshConnect env w h u k).2.transferOpen = true := by
  revert hok
  simp only [sshConnect]
  repeat' split
  all_goals simp

theorem pipeline_frame (env : Env) (f : Flags) (t : String) (w : World) :
    (pipeline env f t w).trace =
      w.trace ++ ([Action.run (mkdirCommand f)] ++
        uploadActions f.src f.remoteDir (visitedBeforeError (env.walk f.src)) ++
        [Action.run (configureCommand f), Action.run (buildCommand f)] ++
        (artifactNames f.artifacts).map (downloadAction (remoteBuildDirOf f) t)) ∧
    (pipeline env f t w).shellOpen = w.shellOpen ∧
    (pipeline env f t w).transferOpen = w.transferOpen ∧
    (pipeline env f t w).stdout.getLast? = some doneReport := by
  have run := runSSHCommandLive_frame env
  have walk := filepathWalk_frame env f.src f.remoteDir (env.walk f.src)
  have dl := downloadArtifacts_frame env (remoteBuildDirOf f) t (artifactNames f.artifacts)
  simp only [pipeline, uploadTree]
  by_cases ha : (artifactNames f.artifacts).length > 0
  · simp only [ha, if_true, World.print]
    refine ⟨?_, ?_, ?_, ?_⟩
    · simp only [remoteBuildDirOf] at dl
      simp [dl, run, walk, mkdirCommand, configureCommand, buildCommand, remoteBuildDirOf]
    · simp only [remoteBuildDirOf] at dl
      simp [dl, run, walk]
    · simp only [remoteBuildDirOf] at dl
      simp [dl, run, walk]
    · simp
  · simp only [ha, if_false, World.print]
    have hnil : artifactNames f.artifacts = [] := by
      cases h : artifactNames f.artifacts with
      | nil => rfl
      | cons a as => simp [h] at ha
    refine ⟨?_, ?_, ?_, ?_⟩
    · simp [hnil, run, walk, mkdirCommand, configureCommand, buildCommand, remoteBuildDirOf]
    · simp [run, walk]
    · simp [run, walk]
    · simp

theorem pipeline_localFS_of_no_artifacts (env : Env) (f : Flags) (t : String) (w : World)
    (ha : f.artifacts = "") : (pipeline env f t w).localFS = w.localFS := by
  have run := runSSHCommandLive_frame env
  have walk := filepathWalk_frame env f.src f.remoteDir (env.walk f.src)
  simp [pipeline, uploadTree, artifactNames, ha, World.print, run, walk]

theorem main_of_missing (env : Env) (f : Flags) (w : World)
    (h : ¬ requiredPresent env f w) :
    (main env f w).1 = Outcome.exit 1 ∧ (main env f w).2.trace = w.trace ∧
    (main env f w).2.shellOpen = w.shellOpen ∧
    (main env f w).2.transferOpen = w.transferOpen ∧
    (main env f w).2.localFS = w.localFS ∧ (main env f w).2.remoteFS = w.remoteFS := by
  by_cases h1 : f.src = "" ∨ f.remoteDir = ""
  · simp [main, h1, World.print]
  · have h2 : mergedHost env f w = "" ∨ mergedUser env f w = "" ∨ mergedKey env f w = "" ∨
        mergedTargetDir env f w = "" := by
      by_contra hc
      push_neg at h1 hc
      exact h ⟨h1.1, h1.2, hc.1, hc.2.1, hc.2.2.1, hc.2.2.2⟩
    simp only [mergedHost, mergedUser, mergedKey, mergedTargetDir] at h2
    simp [main, h1, h2, World.print]

theorem main_of_required (env : Env) (f : Flags) (w : World)
    (h : requiredPresent env f w) :
    main env f w =
      match connectResult env f w with
      | (some e, w1) => (Outcome.fatal e, w1)
      | (none, w1) =>
        (Outcome.done, runDeferred (pipeline env f (mergedTargetDir env f w) w1)) := by
  obtain ⟨h1, h2, h3, h4, h5, h6⟩ := h
  have g1 : ¬ (f.src = "" ∨ f.remoteDir = "") := by
    push_neg; exact ⟨h1, h2⟩
  have g2 : ¬ (mergedHost env f w = "" ∨ mergedUser env f w = "" ∨ mergedKey env f w = "" ∨
      mergedTargetDir env f w = "") := by
    push_neg; exact ⟨h3, h4, h5, h6⟩
  simp only [mergedHost, mergedUser, mergedKey, mergedTargetDir] at g2
  simp only [main, g1, g2, if_false, connectResult, usingLine, mergedHost, mergedUser,
    mergedKey, mergedTargetDir]

theorem main_of_established (env : Env) (f : Flags) (w : World)
    (h : sessionEstablished env f w) :
    main env f w =
      (Outcome.done,
        runDeferred (pipeline env f (mergedTargetDir env f w) (connectResult env f w).2)) := by
  rw [main_of_required env f w h.1]
  have h2 := h.2
  revert h2
  cases connectResult env f w with
  | mk e w1 =>
    intro h2
    simp only at h2
    subst h2
    rfl

theorem main_of_connect_error (env : Env) (f : Flags) (w : World)
    (h : requiredPresent env f w) (e : String) (he : (connectResult env f w).1 = some e) :
    main env f w = (Outcome.fatal e, (connectResult env f w).2) := by
  rw [main_of_required env f w h]
  revert he
  cases connectResult env f w with
  | mk e1 w1 =>
    intro he
    simp only at he
    subst he
    rfl

theorem main_trace_of_established (env : Env) (f : Flags) (w : World)
    (h : sessionEstablished env f w) :
    (main env f w).2.trace =
      w.trace ++ Action.sshConnect (mergedHost env f w) (mergedUser env f w) (mergedKey env f w) ::
        expectedCalls env f w := by
  rw [main_of_established env f w h]
  obtain ⟨p1, _, _, _⟩ := pipeline_frame env f (mergedTargetDir env f w) (connectResult env f w).2
  obtain ⟨c1, _, _, _⟩ := sshConnect_trace env (w.print (usingLine env f w)) (mergedHost env f w)
    (mergedUser env f w) (mergedKey env f w)
  simp only [runDeferred, World.log]
  rw [p1]
  simp only [connectResult]
  rw [c1]
  simp [World.print, expectedCalls]

/-! ## Lemmas on the path functions -/

theorem splitOnChar_ne_nil (sep : Char) (l : List Char) : splitOnChar sep l ≠ [] := by
  induction l with
  | nil => simp [splitOnChar]
  | cons c cs ih =>
    simp only [splitOnChar]
    split
    · simp
    · split <;> simp

theorem splitOnChar_append_sep (sep : Char) (a b : List Char) :
    splitOnChar sep (a ++ sep :: b) = splitOnChar sep a ++ splitOnChar sep b := by
  induction a with
  | nil => simp [splitOnChar]
  | cons c cs ih =>
    simp only [List.cons_append, splitOnChar]
    by_cases hc : c = sep
    · simp [hc, ih]
    · simp only [hc, if_false, List.append_eq]
      rw [ih]
      cases h : splitOnChar sep cs with
      | nil => exact absurd h (splitOnChar_ne_nil sep cs)
      | cons e es => simp

theorem splitOnChar_of_not_mem (sep : Char) (b : List Char) (h : sep ∉ b) :
    splitOnChar sep b = [b] := by
  induction b with
  | nil => simp [splitOnChar]
  | cons c cs ih =>
    have hc : c ≠ sep := fun e => h (by simp [e])
    have hcs : sep ∉ cs := fun e => h (by simp [e])
    simp [splitOnChar, hc, ih hcs]

theorem not_mem_of_mem_splitOnChar (sep : Char) (l : List Char) :
    ∀ e ∈ splitOnChar sep l, sep ∉ e := by
  induction l with
  | nil => simp [splitOnChar]
  | cons c cs ih =>
    intro e he
    simp only [splitOnChar] at he
    by_cases hc : c = sep
    · simp only [hc, if_true, List.mem_cons] at he
      rcases he with rfl | he
      · simp
      · exact ih e he
    · simp only [hc, if_false] at he
      cases h : splitOnChar sep cs with
      | nil => exact absurd h (splitOnChar_ne_nil sep cs)
      | cons e1 es =>
        rw [h] at he ih
        simp only [List.mem_cons] at he
        rcases he with rfl | he
        · have := ih e1 (by simp)
          simp only [List.mem_cons, not_or]
          exact ⟨fun e => hc e.symm, this⟩
        · exact ih e (by simp [he])

theorem cleanStep_stackOK (rooted : Bool) (stack : List (List Char)) (e : List Char)
    (hs : stackOK rooted stack) (he : '/' ∉ e) : stackOK rooted (cleanStep rooted stack e) := by
  unfold cleanStep
  by_cases h1 : e = [] ∨ e = ['.']
  · simp [h1, hs]
  · simp only [h1, if_false]
    push_neg at h1
    by_cases h2 : e = ['.', '.']
    · simp only [h2, if_true]
      cases stack with
      | nil =>
        cases rooted <;> simp [stackOK]
      | cons top rest =>
        simp only
        by_cases h3 : top = ['.', '.']
        · simp only [h3, if_true]
          cases rooted with
          | true => simpa [h3] using hs
          | false =>
            simp only [Bool.false_eq_true, if_false]
            refine ⟨by simp, by simp, by simp, ?_, ?_⟩
            · intro _; simp
            · simpa [h3] using hs
        · simp only [h3, if_false]
          exact hs.2.2.2.2
    · simp only [h2, if_false]
      exact ⟨h1.1, h1.2, he, fun h => absurd h h2, hs⟩

theorem foldl_cleanStep_stackOK (rooted : Bool) (es : List (List Char)) :
    ∀ stack, stackOK rooted stack → (∀ e ∈ es, '/' ∉ e) →
      stackOK rooted (es.foldl (cleanStep rooted) stack) := by
  induction es with
  | nil => intro stack hs _; simpa using hs
  | cons e es ih =>
    intro stack hs he
    simp only [List.foldl_cons]
    exact ih _ (cleanStep_stackOK rooted stack e hs (he e (by simp)))
      (fun x hx => he x (by simp [hx]))

theorem cleanStack_stackOK (rooted : Bool) (p : List Char) :
    stackOK rooted (cleanStack rooted p) :=
  foldl_cleanStep_stackOK rooted _ [] trivial (not_mem_of_mem_splitOnChar '/' p)

theorem foldl_cleanStep_reverse (rooted : Bool) (stack : List (List Char))
    (hs : stackOK rooted stack) : stack.reverse.foldl (cleanStep rooted) [] = stack := by
  induction stack with
  | nil => rfl
  | cons top rest ih =>
    obtain ⟨h1, h2, _, h4, h5⟩ := hs
    simp only [List.reverse_cons, List.foldl_append, List.foldl_cons, List.foldl_nil, ih h5]
    unfold cleanStep
    have h12 : ¬ (top = [] ∨ top = ['.']) := by push_neg; exact ⟨h1, h2⟩
    simp only [h12, if_false]
    by_cases h3 : top = ['.', '.']
    · obtain ⟨hr, hh⟩ := h4 h3
      subst hr
      simp only [h3, if_true]
      cases rest with
      | nil => simp
      | cons t r =>
        have : t = ['.', '.'] := hh t (by simp)
        simp [this]
    · simp [h3]

theorem stackOK_mem (rooted : Bool) (stack : List (List Char)) (hs : stackOK rooted stack) :
    ∀ e ∈ stack, e ≠ [] ∧ '/' ∉ e := by
  induction stack with
  | nil => simp
  | cons top rest ih =>
    intro e he
    simp only [List.mem_cons] at he
    rcases he with rfl | he
    · exact ⟨hs.1, hs.2.2.1⟩
    · exact ih hs.2.2.2.2 e he

theorem joinSlash_append_singleton (xs : List (List Char)) (e : List Char) :
    joinSlash (xs ++ [e]) = if xs = [] then e else joinSlash xs ++ '/' :: e := by
  induction xs with
  | nil => simp [joinSlash]
  | cons x xs ih =>
    cases xs with
    | nil => simp [joinSlash]
    | cons y ys =>
      simp only [List.cons_append] at ih ⊢
      simp [joinSlash, ih]

theorem splitOnChar_joinSlash (es : List (List Char)) (hne : es ≠ [])
    (h : ∀ e ∈ es, '/' ∉ e) : splitOnChar '/' (joinSlash es) = es := by
  induction es with
  | nil => exact absurd rfl hne
  | cons x xs ih =>
    cases xs with
    | nil => simpa [joinSlash] using splitOnChar_of_not_mem '/' x (h x (by simp))
    | cons y ys =>
      have hy := ih (by simp) (fun e he => h e (List.mem_cons_of_mem _ he))
      simp only [joinSlash]
      rw [splitOnChar_append_sep, hy, splitOnChar_of_not_mem '/' x (h x (by simp))]
      simp

theorem joinSlash_head (es : List (List Char)) (hne : es ≠ [])
    (h : ∀ e ∈ es, e ≠ [] ∧ '/' ∉ e) :
    ∃ c rest, joinSlash es = c :: rest ∧ c ≠ '/' := by
  cases es with
  | nil => exact absurd rfl hne
  | cons x xs =>
    obtain ⟨hx1, hx2⟩ := h x (by simp)
    cases x with
    | nil => exact absurd rfl hx1
    | cons c cs =>
      have hc : c ≠ '/' := fun e => hx2 (by simp [e])
      cases xs with
      | nil => exact ⟨c, cs, by simp [joinSlash], hc⟩
      | cons y ys => exact ⟨c, cs ++ '/' :: joinSlash (y :: ys), by simp [joinSlash], hc⟩

theorem splitLastSlash_append (p e : List Char) (he : '/' ∉ e)
    (hp : p = [] ∨ ∃ q, p = q ++ ['/']) : splitLastSlash (p ++ e) = (p, e) := by
  have hall : ∀ a ∈ e.reverse, (fun c => c != '/') a = true := by
    intro a ha
    have : a ∈ e := by simpa using ha
    have hne : a ≠ '/' := fun h => he (h ▸ this)
    simpa using hne
  have htw : (p ++ e).reverse.takeWhile (fun c => c != '/') = e.reverse := by
    rw [List.reverse_append, List.takeWhile_append_of_pos hall]
    rcases hp with rfl | ⟨q, rfl⟩
    · simp
    · simp
  simp only [splitLastSlash, htw, List.reverse_reverse, List.length_append,
    Nat.add_sub_cancel]
  rw [List.take_left]

theorem baseChars_append (p e : List Char) (hne : e ≠ []) (he : '/' ∉ e)
    (hp : p = [] ∨ ∃ q, p = q ++ ['/']) : baseChars (p ++ e) = e := by
  have hpe : p ++ e ≠ [] := by simp [hne]
  have hdw : (p ++ e).reverse.dropWhile (fun c => c == '/') = (p ++ e).reverse := by
    rw [List.reverse_append]
    cases h : e.reverse with
    | nil => simp at h; exact absurd h hne
    | cons x xs =>
      have hx : x ∈ e := by
        have : x ∈ e.reverse := by simp [h]
        simpa using this
      have hxs : x ≠ '/' := fun hh => he (hh ▸ hx)
      rw [List.cons_append, List.dropWhile_cons_of_neg]
      simpa using hxs
  simp only [baseChars, hpe, if_false, hdw, List.reverse_reverse,
    splitLastSlash_append p e he hp, hne]

theorem cleanStack_append_element (rooted : Bool) (r e : List Char)
    (he0 : e ≠ []) (he1 : e ≠ ['.']) (he2 : e ≠ ['.', '.']) (he : '/' ∉ e) :
    cleanStack rooted (r ++ '/' :: e) = e :: cleanStack rooted r := by
  simp only [cleanStack, splitOnChar_append_sep, splitOnChar_of_not_mem '/' e he,
    List.foldl_append, List.foldl_cons, List.foldl_nil]
  simp [cleanStep, he0, he1, he2]

theorem cleanStack_of_clean (rooted : Bool) (stack : List (List Char))
    (hs : stackOK rooted stack) (hne : stack ≠ []) :
    cleanStack rooted (joinSlash stack.reverse ++ ['/']) = stack := by
  have hmem : ∀ e ∈ stack.reverse, '/' ∉ e := fun e h =>
    (stackOK_mem rooted stack hs e (by simpa using h)).2
  have hne2 : stack.reverse ≠ [] := by simpa using hne
  simp only [cleanStack, splitOnChar_append_sep, splitOnChar_joinSlash _ hne2 hmem,
    List.foldl_append, foldl_cleanStep_reverse rooted stack hs]
  simp [splitOnChar, cleanStep]

theorem cleanChars_join_element (r e : List Char) (hr : r ≠ [])
    (he0 : e ≠ []) (he1 : e ≠ ['.']) (he2 : e ≠ ['.', '.']) (he : '/' ∉ e) :
    ∃ p, cleanChars (r ++ '/' :: e) = p ++ e ∧ (p = [] ∨ ∃ q, p = q ++ ['/']) ∧
      cleanChars p = cleanChars r := by
  cases r with
  | nil => exact absurd rfl hr
  | cons c cs =>
    by_cases hc : c = '/'
    · subst hc
      have hstack := cleanStack_append_element true ('/' :: cs) e he0 he1 he2 he
      have hok := cleanStack_stackOK true ('/' :: cs)
      simp only [List.cons_append] at hstack
      have hL : cleanChars ('/' :: cs ++ '/' :: e) =
          '/' :: joinSlash ((cleanStack true ('/' :: cs)).reverse ++ [e]) := by
        simp only [List.cons_append, cleanChars, decide_True, if_true, hstack,
          List.reverse_cons]
      have hR : cleanChars ('/' :: cs) = '/' :: joinSlash (cleanStack true ('/' :: cs)).reverse := by
        simp only [cleanChars, decide_True, if_true]
      rw [hL, hR, joinSlash_append_singleton]
      generalize cleanStack true ('/' :: cs) = st at hok
      by_cases hst : st = []
      · subst hst
        exact ⟨['/'], by simp, Or.inr ⟨[], rfl⟩, by decide⟩
      · have hrev : st.reverse ≠ [] := by simpa using hst
        refine ⟨'/' :: joinSlash st.reverse ++ ['/'], by simp [hrev], Or.inr ⟨_, rfl⟩, ?_⟩
        have h2 := cleanStack_of_clean true st hok hst
        have h3 : cleanStack true ('/' :: (joinSlash st.reverse ++ ['/'])) =
            cleanStack true (joinSlash st.reverse ++ ['/']) := by
          simp [cleanStack, splitOnChar, cleanStep]
        simp only [List.cons_append, cleanChars, decide_True, if_true, h3, h2]
    · have hstack := cleanStack_append_element false (c :: cs) e he0 he1 he2 he
      have hok := cleanStack_stackOK false (c :: cs)
      simp only [List.cons_append] at hstack
      have hL : cleanChars (c :: cs ++ '/' :: e) =
          joinSlash ((cleanStack false (c :: cs)).reverse ++ [e]) := by
        have hne : joinSlash ((cleanStack false (c :: cs)).reverse ++ [e]) ≠ [] := by
          rw [joinSlash_append_singleton]
          split <;> simp [he0]
        simp only [List.cons_append, cleanChars, hc, decide_False, hstack,
          List.reverse_cons, hne]
        simp
      have hR : cleanChars (c :: cs) =
          if joinSlash (cleanStack false (c :: cs)).reverse = [] then ['.']
          else joinSlash (cleanStack false (c :: cs)).reverse := by
        simp only [cleanChars, hc, decide_False]
        simp
      rw [hL, hR, joinSlash_append_singleton]
      generalize cleanStack false (c :: cs) = st at hok
      by_cases hst : st = []
      · subst hst
        exact ⟨[], by simp, Or.inl rfl, by decide⟩
      · have hrev : st.reverse ≠ [] := by simpa using hst
        obtain ⟨c1, rest, hj, hc1⟩ := joinSlash_head _ hrev
          (fun x hx => stackOK_mem _ _ hok x (by simpa using hx))
        refine ⟨joinSlash st.reverse ++ ['/'], by simp [hrev], Or.inr ⟨_, rfl⟩, ?_⟩
        have h2 := cleanStack_of_clean false st hok hst
        rw [hj] at h2 ⊢
        simp only [List.cons_append] at h2 ⊢
        simp only [cleanChars, hc1, decide_False, h2, hj]
        simp

theorem pathJoin_build (r : String) (hr : r ≠ "") :
    pathBase (pathJoin [r, "build"]) = "build" ∧
      pathDir (pathJoin [r, "build"]) = pathClean r := by
  have hdata : r.data ≠ [] := by
    intro h
    apply hr
    cases r with
    | mk d => simp only at h; subst h; rfl
  have hb : ("build" : String) ≠ "" := by decide
  have hj : pathJoin [r, "build"] =
      String.mk (cleanChars (r.data ++ '/' :: ['b', 'u', 'i', 'l', 'd'])) := by
    simp only [pathJoin, List.filter, hr, hb, ne_eq, not_false_eq_true, decide_True,
      joinStrings, pathClean, String.data_append]
    simp
  obtain ⟨p, h1, h2, h3⟩ := cleanChars_join_element r.data ['b', 'u', 'i', 'l', 'd'] hdata
    (by decide) (by decide) (by decide) (by decide)
  rw [hj]
  simp only [pathBase, pathDir, pathClean, h1]
  constructor
  · rw [baseChars_append p _ (by decide) (by decide) h2]
  · rw [splitLastSlash_append p _ (by decide) h2, h3]

/-! ## Lemmas on the remote files after the tree upload -/

theorem runSSHCommandLive_mkdir_remote (env : Env) (w : World) (d : String)
    (hmk : mkdirSucceeds env) :
    (runSSHCommandLive env w ("mkdir -p " ++ d)).2.remoteFS = w.remoteFS ∧
    ∀ p, (runSSHCommandLive env w ("mkdir -p " ++ d)).2.remoteDirs p = true →
      w.remoteDirs p = true ∨ mkdirReaches d p = true := by
  obtain ⟨_, h2, h3⟩ := hmk w.trace.length d (w.log (Action.run ("mkdir -p " ++ d))).remote
  simp only [runSSHCommandLive]
  split
  · exact ⟨rfl, fun p h => Or.inl h⟩
  · split
    · exact ⟨rfl, fun p h => Or.inl h⟩
    · exact ⟨h2, h3⟩

theorem uploadFile_remote (env : Env) (w : World) (lp rp : String)
    (hcopy : ∀ k, env.copyFile k = none) (hdir : w.remoteDirs rp = false) :
    (uploadFile env w lp rp).2.remoteFS =
      (match w.localFS lp with
      | some b => w.remoteFS.write rp b
      | none => w.remoteFS) ∧
    (uploadFile env w lp rp).2.remoteDirs = w.remoteDirs := by
  simp only [uploadFile, hcopy]
  cases h : w.localFS lp <;> simp [World.log, scpTarget, hdir]

theorem filepathWalk_stops (env : Env) (src remoteDir : String) (visits : List Visit) :
    ∀ w : World, (filepathWalk (walkFn env src remoteDir) w visits).2 =
      (filepathWalk (walkFn env src remoteDir) w (visitedBeforeError visits)).2 := by
  induction visits with
  | nil => intro w; rfl
  | cons v vs ih =>
    intro w
    rcases hv : v.err with _ | e
    · have h1 := (walkFn_frame env src remoteDir w v hv).1
      have hw : walkFn env src remoteDir w v = (none, (walkFn env src remoteDir w v).2) :=
        Prod.ext h1 rfl
      have hvis : visitedBeforeError (v :: vs) = v :: visitedBeforeError vs := by
        simp [visitedBeforeError, List.takeWhile, hv]
      rw [hvis, filepathWalk, filepathWalk, hw]
      exact ih _
    · have hvis : visitedBeforeError (v :: vs) = [] := by
        simp [visitedBeforeError, List.takeWhile, hv]
      rw [hvis]
      simp only [filepathWalk, walkFn_error env src remoteDir w v e hv]

theorem visitedBeforeError_no_error (visits : List Visit) :
    ∀ v ∈ visitedBeforeError visits, v.err = none := by
  intro v hv
  have := List.mem_takeWhile_imp hv
  simpa using this

theorem filepathWalk_remoteFS (env : Env) (src remoteDir : String)
    (hmk : mkdirSucceeds env) (hcopy : ∀ k, env.copyFile k = none) (visits : List Visit) :
    ∀ w : World, (∀ v ∈ visits, v.err = none) →
      (∀ p ∈ destinations src remoteDir visits, w.remoteDirs p = false) →
      (∀ p ∈ destinations src remoteDir visits, ∀ q ∈ destinations src remoteDir visits,
        mkdirReaches (pathDir q) p = false) →
      (filepathWalk (walkFn env src remoteDir) w visits).2.remoteFS =
        mirrored src remoteDir w.localFS w.remoteFS visits := by
  induction visits with
  | nil => intro w _ _ _; simp [filepathWalk, mirrored]
  | cons v vs ih =>
    intro w hv hfree hreach
    have hv0 : v.err = none := hv v (by simp)
    have hvs : ∀ x ∈ vs, x.err = none := fun x hx => hv x (by simp [hx])
    obtain ⟨h1, _, h3, _, _, _⟩ := walkFn_frame env src remoteDir w v hv0
    have hw : walkFn env src remoteDir w v = (none, (walkFn env src remoteDir w v).2) :=
      Prod.ext h1 rfl
    have hstep : filepathWalk (walkFn env src remoteDir) w (v :: vs) =
        filepathWalk (walkFn env src remoteDir) (walkFn env src remoteDir w v).2 vs := by
      rw [filepathWalk, hw]
    by_cases hd : v.isDir = true
    · have hsame : (walkFn env src remoteDir w v).2 = w := by
        simp [walkFn, hv0, hd]
      have hdest : destinations src remoteDir (v :: vs) = destinations src remoteDir vs := by
        simp [destinations, List.filter, hd]
      rw [hdest] at hfree hreach
      rw [hstep, hsame, ih w hvs hfree hreach]
      simp [mirrored, hd]
    · have hd2 : v.isDir = false := by simpa using hd
      have hdest : destinations src remoteDir (v :: vs) =
          destination src remoteDir v :: destinations src remoteDir vs := by
        simp [destinations, List.filter, hd2]
      rw [hdest] at hfree hreach
      obtain ⟨m1, m2⟩ := runSSHCommandLive_mkdir_remote env w
        (pathDir (destination src remoteDir v)) hmk
      have hself : (runSSHCommandLive env w
          ("mkdir -p " ++ pathDir (destination src remoteDir v))).2.remoteDirs
            (destination src remoteDir v) = false := by
        by_contra hc
        have hc2 := m2 _ (by simpa using hc)
        rcases hc2 with hc2 | hc2
        · rw [hfree _ (by simp)] at hc2
          exact absurd hc2 (by simp)
        · rw [hreach _ (by simp) _ (by simp)] at hc2
          exact absurd hc2 (by simp)
      obtain ⟨u1, u2⟩ := uploadFile_remote env (runSSHCommandLive env w
        ("mkdir -p " ++ pathDir (destination src remoteDir v))).2 v.localPath
        (destination src remoteDir v) hcopy hself
      have hwv : (walkFn env src remoteDir w v).2 =
          (uploadFile env (runSSHCommandLive env w
            ("mkdir -p " ++ pathDir (destination src remoteDir v))).2 v.localPath
            (destination src remoteDir v)).2 := by
        simp [walkFn, hv0, hd2, destination]
      have hfree2 : ∀ p ∈ destinations src remoteDir vs,
          (walkFn env src remoteDir w v).2.remoteDirs p = false := by
        intro p hp
        rw [hwv, u2]
        by_contra hc
        have hc2 := m2 p (by simpa using hc)
        rcases hc2 with hc2 | hc2
        · rw [hfree p (by simp [hp])] at hc2
          exact absurd hc2 (by simp)
        · rw [hreach p (by simp [hp]) _ (by simp)] at hc2
          exact absurd hc2 (by simp)
      have hreach2 : ∀ p ∈ destinations src remoteDir vs,
          ∀ q ∈ destinations src remoteDir vs, mkdirReaches (pathDir q) p = false :=
        fun p hp q hq => hreach p (by simp [hp]) q (by simp [hq])
      rw [hstep, ih _ hvs hfree2 hreach2, h3]
      have hfs : (walkFn env src remoteDir w v).2.remoteFS =
          match w.localFS v.localPath with
          | some b => w.remoteFS.write (destination src remoteDir v) b
          | none => w.remoteFS := by
        rw [hwv, u1, m1, (runSSHCommandLive_frame env w _).2.1]
      rw [hfs]
      simp only [mirrored, hd, Bool.false_eq_true, if_false]
      cases w.localFS v.localPath <;> rfl

theorem mirrored_of_not_mem (src remoteDir : String) (localFS : FileTable)
    (visits : List Visit) :
    ∀ (t : FileTable) (p : String), p ∉ destinations src remoteDir visits →
      mirrored src remoteDir localFS t visits p = t p := by
  induction visits with
  | nil => intro t p _; rfl
  | cons v vs ih =>
    intro t p hp
    simp only [mirrored]
    by_cases hd : v.isDir = true
    · have hp2 : p ∉ destinations src remoteDir vs := by
        simpa [destinations, List.filter, hd] using hp
      simp [hd, ih t p hp2]
    · have hd2 : v.isDir = false := by simpa using hd
      have hp1 : p ≠ destination src remoteDir v ∧ p ∉ destinations src remoteDir vs := by
        simpa [destinations, List.filter, hd2, not_or] using hp
      simp only [hd, Bool.false_eq_true, if_false]
      cases localFS v.localPath with
      | none => exact ih t p hp1.2
      | some b =>
        simp only
        rw [ih _ p hp1.2]
        simp [FileTable.write, hp1.1]

theorem mirrored_of_mem (src remoteDir : String) (localFS : FileTable)
    (visits : List Visit) :
    ∀ (t : FileTable), (destinations src remoteDir visits).Nodup →
      (∀ v ∈ visits, v.isDir = false → ∃ b, localFS v.localPath = some b) →
      ∀ v ∈ visits, v.isDir = false →
        mirrored src remoteDir localFS t visits (destination src remoteDir v) =
          localFS v.localPath := by
  induction visits with
  | nil => intro t _ _ v hv; simp at hv
  | cons x xs ih =>
    intro t hnd hread v hv hvd
    simp only [mirrored]
    by_cases hd : x.isDir = true
    · have hnd2 : (destinations src remoteDir xs).Nodup := by
        simpa [destinations, List.filter, hd] using hnd
      have hvx : v ∈ xs := by
        simp only [List.mem_cons] at hv
        rcases hv with rfl | hv
        · simp [hd] at hvd
        · exact hv
      simp only [hd, if_true]
      exact ih t hnd2 (fun y hy => hread y (by simp [hy])) v hvx hvd
    · have hd2 : x.isDir = false := by simpa using hd
      have hnd2 : destination src remoteDir x ∉ destinations src remoteDir xs ∧
          (destinations src remoteDir xs).Nodup := by
        simpa [destinations, List.filter, hd2] using hnd
      obtain ⟨b, hb⟩ := hread x (by simp) hd2
      simp only [hd, Bool.false_eq_true, if_false, hb]
      by_cases hmem : v ∈ xs
      · exact ih _ hnd2.2 (fun y hy => hread y (by simp [hy])) v hmem hvd
      · have hvx : v = x := by
          simp only [List.mem_cons] at hv
          rcases hv with h | h
          · exact h
          · exact absurd h hmem
        subst hvx
        rw [mirrored_of_not_mem src remoteDir localFS xs _ _ hnd2.1, hb]
        simp [FileTable.write]

/-! ## Further lemmas for the claims -/

theorem visitedBeforeError_of_no_error (visits : List Visit)
    (h : ∀ v ∈ visits, v.err = none) : visitedBeforeError visits = visits := by
  induction visits with
  | nil => rfl
  | cons v vs ih =>
    have hv : v.err = none := h v (by simp)
    have := ih (fun x hx => h x (by simp [hx]))
    simp only [visitedBeforeError] at this ⊢
    simp [List.takeWhile, hv, this]

theorem filepathWalk_no_error (env : Env) (src remoteDir : String) (visits : List Visit) :
    ∀ w : World, (∀ v ∈ visits, v.err = none) →
      (filepathWalk (walkFn env src remoteDir) w visits).1 = none := by
  induction visits with
  | nil => intro w _; rfl
  | cons v vs ih =>
    intro w hv
    have hv0 : v.err = none := hv v (by simp)
    obtain ⟨h1, _⟩ := walkFn_frame env src remoteDir w v hv0
    have hw : walkFn env src remoteDir w v = (none, (walkFn env src remoteDir w v).2) :=
      Prod.ext h1 rfl
    rw [filepathWalk, hw]
    exact ih _ (fun x hx => hv x (by simp [hx]))

theorem uploadActions_no_download (src remoteDir : String) (visits : List Visit) :
    (uploadActions src remoteDir visits).filter Action.isDownload = [] := by
  induction visits with
  | nil => rfl
  | cons v vs ih =>
    simp only [uploadActions]
    split
    · exact ih
    · simp [List.filter, Action.isDownload, ih]

theorem downloads_filter (b t : String) (names : List String) :
    (names.map (downloadAction b t)).filter Action.isDownload = names.map (downloadAction b t) := by
  induction names with
  | nil => rfl
  | cons n ns ih => simp [List.filter, downloadAction, Action.isDownload, ih]

theorem main_stdout_of_established (env : Env) (f : Flags) (w : World)
    (h : sessionEstablished env f w) :
    (main env f w).2.stdout.getLast? = some doneReport := by
  rw [main_of_established env f w h]
  exact (pipeline_frame env f _ _).2.2.2

theorem main_done_iff (env : Env) (f : Flags) (w : World) :
    (main env f w).1 = Outcome.done ↔ sessionEstablished env f w := by
  constructor
  · intro hd
    by_cases hr : requiredPresent env f w
    · refine ⟨hr, ?_⟩
      cases hc : (connectResult env f w).1 with
      | none => rfl
      | some e =>
        rw [main_of_connect_error env f w hr e hc] at hd
        simp at hd
    · rw [(main_of_missing env f w hr).1] at hd
      simp at hd
  · intro h
    rw [main_of_established env f w h]

theorem mkdirTarget_mkdir (d : String) : mkdirTarget ("mkdir -p " ++ d) = some d := by
  have h : ("mkdir -p " ++ d).data =
      'm' :: 'k' :: 'd' :: 'i' :: 'r' :: ' ' :: '-' :: 'p' :: ' ' :: d.data := by
    rw [String.data_append]; rfl
  have h2 : "mkdir -p ".data = ['m', 'k', 'd', 'i', 'r', ' ', '-', 'p', ' '] := rfl
  simp [mkdirTarget, h, h2, List.isPrefixOf]

theorem demoEnv_mkdirSucceeds : mkdirSucceeds demoEnv := by
  intro k d r
  refine ⟨rfl, ?_, ?_⟩
  · simp [demoEnv, mkdirTarget_mkdir]
  · intro p hp
    simpa [demoEnv, mkdirTarget_mkdir] using hp

theorem clashEnv_mkdirSucceeds : mkdirSucceeds clashEnv := by
  intro k d r
  refine ⟨rfl, ?_, ?_⟩
  · simp [clashEnv, demoEnv, mkdirTarget_mkdir]
  · intro p hp
    simpa [clashEnv, demoEnv, mkdirTarget_mkdir] using hp

theorem joinChars_splitOnChar (sep : Char) (s : List Char) :
    joinChars sep (splitOnChar sep s) = s := by
  induction s with
  | nil => rfl
  | cons c cs ih =>
    simp only [splitOnChar]
    cases h : splitOnChar sep cs with
    | nil => exact absurd h (splitOnChar_ne_nil sep cs)
    | cons e es =>
      rw [h] at ih
      by_cases hc : c = sep
      · simp only [hc, if_true, joinChars, List.nil_append]
        rw [ih]
      · simp only [hc, if_false]
        cases es with
        | nil =>
          simp only [joinChars] at ih ⊢
          rw [ih]
        | cons e2 es2 =>
          simp only [joinChars, List.cons_append] at ih ⊢
          rw [ih]

theorem dropWhile_append_all (f : Char → Bool) (a b : List Char)
    (h : ∀ c ∈ a, f c = true) : (a ++ b).dropWhile f = b.dropWhile f := by
  induction a with
  | nil => rfl
  | cons x xs ih =>
    have hx : f x = true := h x (by simp)
    simp only [List.cons_append, List.dropWhile, hx]
    exact ih (fun c hc => h c (by simp [hc]))

theorem baseChars_append_slashes (p e s : List Char) (hne : e ≠ []) (he : '/' ∉ e)
    (hp : p = [] ∨ ∃ q, p = q ++ ['/']) (hs : ∀ c ∈ s, c = '/') :
    baseChars (p ++ e ++ s) = e := by
  have hpe : p ++ e ++ s ≠ [] := by simp [hne]
  have hstrip : (p ++ e ++ s).reverse.dropWhile (fun c => c == '/') = (p ++ e).reverse := by
    rw [List.reverse_append (p ++ e) s, dropWhile_append_all]
    · rw [List.reverse_append]
      cases h : e.reverse with
      | nil => simp at h; exact absurd h hne
      | cons x xs =>
        have hx : x ∈ e := by
          have : x ∈ e.reverse := by simp [h]
          simpa using this
        have hxs : x ≠ '/' := fun hh => he (hh ▸ hx)
        rw [List.cons_append, List.dropWhile_cons_of_neg]
        simpa using hxs
    · intro c hc
      have : c ∈ s := by simpa using hc
      simp [hs c this]
  simp only [baseChars, hpe, if_false, hstrip, List.reverse_reverse,
    splitLastSlash_append p e he hp, hne]

theorem downloadFile_ok (env : Env) (w : World) (rp lp : String)
    (h : (downloadFile env w rp lp).1 = none) :
    (downloadFile env w rp lp).2.localFS lp = w.remoteFS rp ∧
      (w.remoteFS rp).isSome = true := by
  revert h
  simp only [downloadFile]
  cases env.create w.trace.length lp with
  | some e => simp
  | none =>
    cases env.copyFromRemote w.trace.length with
    | some e => simp
    | none =>
      cases h2 : w.remoteFS rp with
      | none => simp [World.log, h2]
      | some b => simp [World.log, h2, FileTable.write]

theorem pipeline_stdout_of_no_artifacts (env : Env) (f : Flags) (t : String) (w : World)
    (ha : f.artifacts = "") : noArtifactsLine ∈ (pipeline env f t w).stdout := by
  have run := runSSHCommandLive_frame env
  have walk := filepathWalk_frame env f.src f.remoteDir (env.walk f.src)
  simp [pipeline, uploadTree, artifactNames, ha, World.print, run, walk, noArtifactsLine]

theorem expectedCalls_downloads (env : Env) (f : Flags) (w : World) :
    (Action.sshConnect (mergedHost env f w) (mergedUser env f w) (mergedKey env f w) ::
        expectedCalls env f w).filter Action.isDownload =
      (artifactNames f.artifacts).map
        (downloadAction (remoteBuildDirOf f) (mergedTargetDir env f w)) := by
  simp only [expectedCalls, List.filter_cons, List.filter_append, uploadActions_no_download,
    downloads_filter, Action.isDownload]
  simp [List.filter, Action.isDownload]

/-! ## The claims -/

/-- C1, counterexample: in the sample run with every remote command exiting
with status 1, the session is established, the creation of the remote build
directory is the second call and returns an error, and the run still ends in
Done: the claim that a failing remote command ends the run in Failed is false
there. -/
theorem failed_command_still_done :
    sessionEstablished failingEnv demoFlags demoWorld ∧
    ¬ ((∃ k cmd, (main failingEnv demoFlags demoWorld).2.trace.get? k =
            some (Action.run cmd) ∧ commandError failingEnv k cmd ≠ none) →
        (main failingEnv demoFlags demoWorld).1 ≠ Outcome.done) := by
  refine ⟨by decide, ?_⟩
  intro h
  exact h ⟨1, "mkdir -p /srv/demo/build", by decide, by decide⟩ (by decide)

/-- C1 (amended): a run ends in Done exactly when it gets past session
establishment; and on every such run, whatever any remote command or transfer
returns, the driver makes all its calls in order (create the build directory,
upload the tree, configure, build, download each artifact, close both
connections) and its last line of output is the Done report. -/
theorem done_iff_session_established (env : Env) (f : Flags) (l : FileTable) (r : Remote) :
    ((main env f (World.init l r)).1 = Outcome.done ↔
      sessionEstablished env f (World.init l r)) ∧
    (sessionEstablished env f (World.init l r) →
      (main env f (World.init l r)).2.trace =
        Action.sshConnect (mergedHost env f (World.init l r))
          (mergedUser env f (World.init l r)) (mergedKey env f (World.init l r)) ::
          expectedCalls env f (World.init l r) ∧
      (main env f (World.init l r)).2.stdout.getLast? = some doneReport) := by
  refine ⟨main_done_iff env f _, fun h => ⟨?_, main_stdout_of_established env f _ h⟩⟩
  rw [main_trace_of_established env f _ h]
  rfl

/-- C1 (amended), witness: the sample run with every remote command failing is
past session establishment, ends in Done, and has issued the configure and the
build command after the failed creation of the build directory. -/
theorem done_iff_session_established_witness :
    sessionEstablished failingEnv demoFlags demoWorld ∧
    (main failingEnv demoFlags demoWorld).1 = Outcome.done ∧
    (main failingEnv demoFlags demoWorld).2.trace =
      [Action.sshConnect "build01" "dev" "/home/dev/.ssh/id_rsa",
        Action.run "mkdir -p /srv/demo/build",
        Action.run "mkdir -p /srv/demo", Action.upload "proj/a.txt" "/srv/demo/a.txt",
        Action.run "mkdir -p /srv/demo/sub",
        Action.upload "proj/sub/b.txt" "/srv/demo/sub/b.txt",
        Action.run "cd /srv/demo/build && cmake .. -DCMAKE_BUILD_TYPE=Release -DWITH_TESTS=ON",
        Action.run "cd /srv/demo/build && cmake --build . -- -j$(nproc)",
        Action.download "/srv/demo/build/out.bin" "out/out.bin",
        Action.closeTransfer, Action.closeShell] ∧
    (main failingEnv demoFlags demoWorld).2.stdout.getLast? = some doneReport :=
  ⟨by decide,
    (done_iff_session_established failingEnv demoFlags demoLocal demoRemote).1.2 (by decide),
    ((done_iff_session_established failingEnv demoFlags demoLocal demoRemote).2
      (by decide)).1.trans (by decide),
    ((done_iff_session_established failingEnv demoFlags demoLocal demoRemote).2
      (by decide)).2⟩

/-- C2: `runSSHCommandLive` returns a nil error exactly when the session was
opened, the command was started and the remote process delivered exit status
zero; so a failure to open the session, a failure to start the command and a
non-zero exit status each give a non-nil error. -/
theorem runSSHCommandLive_nil_iff (env : Env) (w : World) (cmd : String) :
    (runSSHCommandLive env w cmd).1 = none ↔
      (env.newSession w.trace.length = none ∧ env.start w.trace.length cmd = none ∧
        env.exitStatus w.trace.length cmd = some 0) := by
  simp only [runSSHCommandLive]
  cases h1 : env.newSession w.trace.length with
  | some e => simp
  | none =>
    cases h2 : env.start w.trace.length cmd with
    | some e => simp
    | none =>
      cases h3 : env.exitStatus w.trace.length cmd with
      | none => simp [sessionWait]
      | some n =>
        cases n with
        | zero => simp [sessionWait]
        | succ m => simp [sessionWait]

/-- C3: for each connection field, the merged value is the flag whenever the
flag is non-empty, the value of the configuration document whenever the flag is
empty and a document was loaded, and stays empty when the flag is empty and no
document was loaded. The field selector ranges over host, user, key and
target-dir. -/
theorem mergeField_spec (flag : String) (cfg : Option Config) (field : Config → String) :
    (flag ≠ "" → mergeField flag cfg field = flag) ∧
    (flag = "" → ∀ c, cfg = some c → mergeField flag cfg field = field c) ∧
    (flag = "" → cfg = none → mergeField flag cfg field = "") := by
  refine ⟨?_, ?_, ?_⟩
  · intro h
    cases cfg <;> simp [mergeField, h]
  · intro h c hc
    simp [mergeField, h, hc]
  · intro h hc
    simp [mergeField, h, hc]

/-- C3, witness: with the sample configuration loaded, the flag `build01` wins
over the configured host, an empty flag takes the configured value for each of
the four fields, and an empty flag stays empty without a configuration. -/
theorem mergeField_spec_witness :
    mergeField "build01" (some demoConfig) Config.host = "build01" ∧
    mergeField "" (some demoConfig) Config.host = "farm02" ∧
    mergeField "" (some demoConfig) Config.user = "ci" ∧
    mergeField "" (some demoConfig) Config.key = "/etc/ci/key" ∧
    mergeField "" (some demoConfig) Config.targetDir = "artifacts" ∧
    mergeField "" none Config.targetDir = "" :=
  ⟨(mergeField_spec "build01" (some demoConfig) Config.host).1 (by decide),
    (mergeField_spec "" (some demoConfig) Config.host).2.1 rfl demoConfig rfl,
    (mergeField_spec "" (some demoConfig) Config.user).2.1 rfl demoConfig rfl,
    (mergeField_spec "" (some demoConfig) Config.key).2.1 rfl demoConfig rfl,
    (mergeField_spec "" (some demoConfig) Config.targetDir).2.1 rfl demoConfig rfl,
    (mergeField_spec "" none Config.targetDir).2.2 rfl rfl⟩

/-- C4: `main` calls `sshConnect` exactly when `src` and `remote-dir` are set
and the merged host, user, key and target-dir are all non-empty; otherwise the
process exits with status 1 having made no call and opened no connection; and
when loading the configuration fails while the flags give all four fields,
`sshConnect` is still called, with the values of the flags. -/
theorem connects_iff_required (env : Env) (f : Flags) (l : FileTable) (r : Remote) :
    ((∃ h u k, Action.sshConnect h u k ∈ (main env f (World.init l r)).2.trace) ↔
      (f.src ≠ "" ∧ f.remoteDir ≠ "" ∧
        mergeField f.host (loadConfig env (World.init l r) f.config) Config.host ≠ "" ∧
        mergeField f.user (loadConfig env (World.init l r) f.config) Config.user ≠ "" ∧
        mergeField f.key (loadConfig env (World.init l r) f.config) Config.key ≠ "" ∧
        mergeField f.targetDir (loadConfig env (World.init l r) f.config) Config.targetDir ≠ "")) ∧
    (¬ requiredPresent env f (World.init l r) →
      (main env f (World.init l r)).1 = Outcome.exit 1 ∧
      (main env f (World.init l r)).1.status = 1 ∧
      (main env f (World.init l r)).2.trace = [] ∧
      (main env f (World.init l r)).2.shellOpen = false ∧
      (main env f (World.init l r)).2.transferOpen = false) ∧
    (loadConfig env (World.init l r) f.config = none →
      f.src ≠ "" ∧ f.remoteDir ≠ "" ∧ f.host ≠ "" ∧ f.user ≠ "" ∧ f.key ≠ "" ∧
        f.targetDir ≠ "" →
      Action.sshConnect f.host f.user f.key ∈ (main env f (World.init l r)).2.trace) := by
  have hconn : requiredPresent env f (World.init l r) →
      Action.sshConnect (mergedHost env f (World.init l r)) (mergedUser env f (World.init l r))
        (mergedKey env f (World.init l r)) ∈ (main env f (World.init l r)).2.trace := by
    intro hr
    have hc := (sshConnect_trace env ((World.init l r).print (usingLine env f (World.init l r)))
      (mergedHost env f (World.init l r)) (mergedUser env f (World.init l r))
      (mergedKey env f (World.init l r))).1
    cases he : (connectResult env f (World.init l r)).1 with
    | none =>
      rw [main_trace_of_established env f _ ⟨hr, he⟩]
      simp
    | some e =>
      rw [main_of_connect_error env f _ hr e he]
      simp only [connectResult]
      rw [hc]
      simp
  refine ⟨⟨?_, ?_⟩, ?_, ?_⟩
  · rintro ⟨h, u, k, hm⟩
    by_contra hn
    have := (main_of_missing env f (World.init l r) hn).2.1
    rw [this] at hm
    simp [World.init] at hm
  · intro hr
    exact ⟨_, _, _, hconn hr⟩
  · intro hn
    obtain ⟨h1, h2, h3, h4, _, _⟩ := main_of_missing env f (World.init l r) hn
    refine ⟨h1, ?_, ?_, ?_, ?_⟩
    · rw [h1]; rfl
    · rw [h2]; rfl
    · rw [h3]; rfl
    · rw [h4]; rfl
  · intro hcfg hf
    obtain ⟨f1, f2, f3, f4, f5, f6⟩ := hf
    have hr : requiredPresent env f (World.init l r) := by
      simp only [requiredPresent, mergedHost, mergedUser, mergedKey, mergedTargetDir, hcfg,
        mergeField]
      exact ⟨f1, f2, f3, f4, f5, f6⟩
    have := hconn hr
    simpa [mergedHost, mergedUser, mergedKey, hcfg, mergeField] using this

/-- C4, witness: the sample run has no configuration file and every field on
the command line, and it calls `sshConnect`; the same run without `remote-dir`
exits with status 1 before any call. -/
theorem connects_iff_required_witness :
    loadConfig demoEnv demoWorld demoFlags.config = none ∧
    Action.sshConnect "build01" "dev" "/home/dev/.ssh/id_rsa" ∈
      (main demoEnv demoFlags demoWorld).2.trace ∧
    (main demoEnv { demoFlags with remoteDir := "" } demoWorld).1 = Outcome.exit 1 ∧
    (main demoEnv { demoFlags with remoteDir := "" } demoWorld).2.trace = [] :=
  ⟨by decide,
    (connects_iff_required demoEnv demoFlags demoLocal demoRemote).2.2 (by decide) (by decide),
    ((connects_iff_required demoEnv { demoFlags with remoteDir := "" } demoLocal
      demoRemote).2.1 (by decide)).1,
    ((connects_iff_required demoEnv { demoFlags with remoteDir := "" } demoLocal
      demoRemote).2.1 (by decide)).2.2.1⟩

/-- C5, counterexample: a project with `a.txt`, a regular file `build`, a
directory `locked` the walk cannot read and `sub/b.txt` is uploaded to a remote
root that already holds `old.txt`, the remote build directory having been
created as `main` does before the upload. Every directory creation and every
transfer made succeeds, yet afterwards `old.txt`, no file of the tree, is still
under the remote root; the file `build` is not at its destination but inside
the build directory; and `sub/b.txt`, which comes after the walk error, is not
on the remote host. The regular files under the remote root are not the
regular files of the tree. -/
theorem upload_is_no_mirror :
    mkdirSucceeds clashEnv ∧
    transferSucceeds clashEnv clashWorld (visitedBeforeError (clashEnv.walk "proj")) ∧
    (uploadTree clashEnv "proj" "/srv/demo" clashWorld).2.remoteFS "/srv/demo/old.txt" =
      some [111, 108, 100] ∧
    (uploadTree clashEnv "proj" "/srv/demo" clashWorld).2.remoteFS "/srv/demo/build" = none ∧
    (uploadTree clashEnv "proj" "/srv/demo" clashWorld).2.remoteFS "/srv/demo/build/build" =
      some [66] ∧
    (uploadTree clashEnv "proj" "/srv/demo" clashWorld).2.remoteFS "/srv/demo/sub/b.txt" =
      none ∧
    ¬ (∀ rel : String, pathClean rel = rel →
        ((∃ b, (uploadTree clashEnv "proj" "/srv/demo" clashWorld).2.remoteFS
          (pathJoin ["/srv/demo", rel]) = some b) ↔
        (∃ v ∈ clashEnv.walk "proj", v.mode = FileMode.regular ∧
          filepathToSlash (filepathRel "proj" v.localPath).1 = rel))) := by
  refine ⟨clashEnv_mkdirSucceeds, ⟨fun k => rfl, by decide⟩, by decide, by decide, by decide,
    by decide, ?_⟩
  intro h
  have h1 := (h "old.txt" (by decide)).1 ⟨[111, 108, 100], by decide⟩
  revert h1
  decide

/-- C5 (amended): after a tree upload in which every directory creation and
every file transfer succeeds, where distinct entries have distinct destinations
and no destination is a directory on the remote host when its transfer is
made: every entry of the tree that is no directory and that the walk comes to
before its first error is on the remote host at `path.Join(R, ToSlash(rel))`,
`rel` being its path relative to the local root, with the bytes of its local
counterpart; every other remote path holds what it held before the upload; and
so the files on the remote host are exactly those destinations when the host
held no other file before. -/
theorem upload_stores_every_file (env : Env) (src remoteDir : String) (w : World)
    (hmk : mkdirSucceeds env)
    (htr : transferSucceeds env w (visitedBeforeError (env.walk src)))
    (hdist : (destinations src remoteDir (visitedBeforeError (env.walk src))).Nodup)
    (hfree : destinationsFree src remoteDir w.remoteDirs (visitedBeforeError (env.walk src))) :
    (∀ v ∈ visitedBeforeError (env.walk src), v.isDir = false →
      (uploadTree env src remoteDir w).2.remoteFS
          (pathJoin [remoteDir, filepathToSlash (filepathRel src v.localPath).1]) =
        w.localFS v.localPath ∧
      (w.localFS v.localPath).isSome = true) ∧
    (∀ p, p ∉ destinations src remoteDir (visitedBeforeError (env.walk src)) →
      (uploadTree env src remoteDir w).2.remoteFS p = w.remoteFS p) ∧
    ((∀ p, p ∉ destinations src remoteDir (visitedBeforeError (env.walk src)) →
        w.remoteFS p = none) →
      ∀ p, ((uploadTree env src remoteDir w).2.remoteFS p).isSome = true ↔
        p ∈ destinations src remoteDir (visitedBeforeError (env.walk src))) := by
  have hfs : (uploadTree env src remoteDir w).2.remoteFS =
      mirrored src remoteDir w.localFS w.remoteFS (visitedBeforeError (env.walk src)) := by
    simp only [uploadTree]
    rw [filepathWalk_stops env src remoteDir (env.walk src) w]
    exact filepathWalk_remoteFS env src remoteDir hmk htr.1 _ w
      (visitedBeforeError_no_error (env.walk src)) hfree.1 hfree.2
  have hread : ∀ v ∈ visitedBeforeError (env.walk src), v.isDir = false →
      ∃ b, w.localFS v.localPath = some b :=
    fun v hv hd => Option.isSome_iff_exists.mp (htr.2 v hv hd)
  have hmem : ∀ v ∈ visitedBeforeError (env.walk src), v.isDir = false →
      (uploadTree env src remoteDir w).2.remoteFS (destination src remoteDir v) =
        w.localFS v.localPath := by
    intro v hv hd
    rw [hfs]
    exact mirrored_of_mem src remoteDir w.localFS _ w.remoteFS hdist hread v hv hd
  have hnot : ∀ p, p ∉ destinations src remoteDir (visitedBeforeError (env.walk src)) →
      (uploadTree env src remoteDir w).2.remoteFS p = w.remoteFS p := by
    intro p hp
    rw [hfs]
    exact mirrored_of_not_mem src remoteDir w.localFS _ w.remoteFS p hp
  refine ⟨fun v hv hd => ⟨hmem v hv hd, htr.2 v hv hd⟩, hnot, ?_⟩
  intro hempty p
  constructor
  · intro hp
    by_contra hn
    rw [hnot p hn, hempty p hn] at hp
    simp at hp
  · intro hp
    simp only [destinations, List.mem_map, List.mem_filter] at hp
    obtain ⟨v, ⟨hv, hd⟩, rfl⟩ := hp
    have hd2 : v.isDir = false := by simpa using hd
    rw [hmem v hv hd2]
    exact htr.2 v hv hd2

/-- C5 (amended), witness: in the sample run, from the world in which the
remote build directory has been created, `a.txt` and `sub/b.txt` arrive under
the remote root with their bytes, and `old.txt`, which was there before, is
still there. -/
theorem upload_stores_every_file_witness :
    mkdirSucceeds demoEnv ∧
    transferSucceeds demoEnv demoUploadWorld (visitedBeforeError (demoEnv.walk "proj")) ∧
    (destinations "proj" "/srv/demo" (visitedBeforeError (demoEnv.walk "proj"))).Nodup ∧
    destinationsFree "proj" "/srv/demo" demoUploadWorld.remoteDirs
      (visitedBeforeError (demoEnv.walk "proj")) ∧
    (uploadTree demoEnv "proj" "/srv/demo" demoUploadWorld).2.remoteFS "/srv/demo/a.txt" =
      some helloBytes ∧
    (uploadTree demoEnv "proj" "/srv/demo" demoUploadWorld).2.remoteFS "/srv/demo/sub/b.txt" =
      some worldBytes ∧
    (uploadTree demoEnv "proj" "/srv/demo" demoUploadWorld).2.remoteFS "/srv/demo/old.txt" =
      some [111, 108, 100] :=
  ⟨demoEnv_mkdirSucceeds, ⟨fun _ => rfl, by decide⟩, by decide, by decide,
    ((upload_stores_every_file demoEnv "proj" "/srv/demo" demoUploadWorld
      demoEnv_mkdirSucceeds ⟨fun _ => rfl, by decide⟩ (by decide) (by decide)).1
      { localPath := "proj/a.txt", mode := FileMode.regular, err := none }
      (by decide) (by decide)).1,
    ((upload_stores_every_file demoEnv "proj" "/srv/demo" demoUploadWorld
      demoEnv_mkdirSucceeds ⟨fun _ => rfl, by decide⟩ (by decide) (by decide)).1
      { localPath := "proj/sub/b.txt", mode := FileMode.regular, err := none }
      (by decide) (by decide)).1,
    (upload_stores_every_file demoEnv "proj" "/srv/demo" demoUploadWorld
      demoEnv_mkdirSucceeds ⟨fun _ => rfl, by decide⟩ (by decide) (by decide)).2.1
      "/srv/demo/old.txt" (by decide)⟩

/-- C6: when the walk of the local root meets no error, the calls of the tree
upload are, for each visited entry that is no directory and in visit order, the
command `mkdir -p` on the parent of its destination followed at once by the
transfer of the entry to its destination, and nothing for a directory; the
walk returns no error; and a second outside world that visits the same entries
gives the same calls, whatever its commands and transfers return. -/
theorem upload_calls (env env2 : Env) (src remoteDir : String) (w : World)
    (hwalk : ∀ v ∈ env.walk src, v.err = none) (hsame : env2.walk src = env.walk src) :
    (uploadTree env src remoteDir w).2.trace =
      w.trace ++ uploadActions src remoteDir (env.walk src) ∧
    (uploadTree env src remoteDir w).1 = none ∧
    (uploadTree env2 src remoteDir w).2.trace = (uploadTree env src remoteDir w).2.trace := by
  have h1 := (filepathWalk_frame env src remoteDir (env.walk src) w).1
  have h2 := (filepathWalk_frame env2 src remoteDir (env2.walk src) w).1
  rw [hsame] at h2
  rw [visitedBeforeError_of_no_error _ hwalk] at h1 h2
  refine ⟨h1, filepathWalk_no_error env src remoteDir (env.walk src) w hwalk, ?_⟩
  simp only [uploadTree]
  rw [hsame, h2, h1]

/-- C6, witness: for the sample project with `a.txt` and `sub/b.txt` the calls
are `mkdir -p` on the remote root, the upload of `a.txt`, `mkdir -p` on `sub`
under the remote root, the upload of `sub/b.txt`; they are the same when every
remote command fails. -/
theorem upload_calls_witness :
    (∀ v ∈ demoEnv.walk "proj", v.err = none) ∧
    failingEnv.walk "proj" = demoEnv.walk "proj" ∧
    (uploadTree demoEnv "proj" "/srv/demo" demoWorld).2.trace =
      [Action.run "mkdir -p /srv/demo", Action.upload "proj/a.txt" "/srv/demo/a.txt",
        Action.run "mkdir -p /srv/demo/sub",
        Action.upload "proj/sub/b.txt" "/srv/demo/sub/b.txt"] ∧
    (uploadTree failingEnv "proj" "/srv/demo" demoWorld).2.trace =
      (uploadTree demoEnv "proj" "/srv/demo" demoWorld).2.trace :=
  ⟨by decide, rfl,
    (upload_calls demoEnv failingEnv "proj" "/srv/demo" demoWorld (by decide) rfl).1.trans
      (by decide),
    (upload_calls demoEnv failingEnv "proj" "/srv/demo" demoWorld (by decide) rfl).2.2⟩

/-- C7: for a non-empty artifacts string, on every run past session
establishment the downloads made are, in the order of the comma-separated
names and one per name, from `path.Join(B, n)` with `B` the remote build
directory into `filepath.Join(t, filepath.Base(n))` with `t` the merged target
directory, whatever any download returns; the loop does the same for every
`B` and `t`; a download that returns no error has copied the bytes of the
remote file into the local file. The names are the pieces of the artifacts
string between its commas: none holds a comma, and joined by commas in their
order they give the string back. The base name of a name is its last element:
what stands after its last slash, trailing slashes apart. -/
theorem downloads_each_name (env : Env) (f : Flags) (l : FileTable) (r : Remote)
    (ha : f.artifacts ≠ "") (h : sessionEstablished env f (World.init l r)) :
    (main env f (World.init l r)).2.trace.filter Action.isDownload =
      (stringsSplitComma f.artifacts).map (fun n =>
        Action.download (pathJoin [pathJoin [f.remoteDir, "build"], n])
          (filepathJoin [mergedTargetDir env f (World.init l r), filepathBase n])) ∧
    (∀ (b t : String) (w : World),
      (downloadArtifacts env b t w (artifactNames f.artifacts)).trace =
        w.trace ++ (stringsSplitComma f.artifacts).map (fun n =>
          Action.download (pathJoin [b, n]) (filepathJoin [t, filepathBase n]))) ∧
    (∀ (w : World) (rp lp : String), (downloadFile env w rp lp).1 = none →
      (downloadFile env w rp lp).2.localFS lp = w.remoteFS rp ∧
        (w.remoteFS rp).isSome = true) ∧
    (∀ n ∈ stringsSplitComma f.artifacts, ',' ∉ n.data) ∧
    joinChars ',' ((stringsSplitComma f.artifacts).map String.data) = f.artifacts.data ∧
    (∀ p e s : List Char, e ≠ [] → '/' ∉ e → (p = [] ∨ ∃ q, p = q ++ ['/']) →
      (∀ c ∈ s, c = '/') → filepathBase (String.mk (p ++ e ++ s)) = String.mk e) := by
  have hn : artifactNames f.artifacts = stringsSplitComma f.artifacts := by
    simp [artifactNames, ha]
  refine ⟨?_, ?_, fun w rp lp => downloadFile_ok env w rp lp, ?_, ?_, ?_⟩
  · rw [main_trace_of_established env f _ h]
    simp only [World.init, List.nil_append]
    rw [expectedCalls_downloads, hn]
    rfl
  · intro b t w
    rw [(downloadArtifacts_frame env b t _ w).1, hn]
    rfl
  · intro n hmem
    simp only [stringsSplitComma, List.mem_map] at hmem
    obtain ⟨e, he, rfl⟩ := hmem
    exact not_mem_of_mem_splitOnChar ',' _ e he
  · have hmap : (stringsSplitComma f.artifacts).map String.data =
        splitOnChar ',' f.artifacts.data := by
      simp [stringsSplitComma, List.map_map, Function.comp_def]
    rw [hmap, joinChars_splitOnChar]
  · intro p e s he0 he hp hs
    simp only [filepathBase, pathBase]
    rw [baseChars_append_slashes p e s he0 he hp hs]

/-- C7, witness: with `artifacts` set to `out.bin` the one download is from
`out.bin` in the remote build directory into `out.bin` in the target directory,
which afterwards holds the bytes the build left on the remote host. With
`artifacts` set to `bin/app,out.bin` the downloads are, in this order, from
`bin/app` in the build directory into `app` in the target directory and from
`out.bin` into `out.bin`; the first fails, the remote file not being there, and
the second is still made and succeeds. -/
theorem downloads_each_name_witness :
    demoFlags.artifacts ≠ "" ∧ sessionEstablished demoEnv demoFlags demoWorld ∧
    (main demoEnv demoFlags demoWorld).2.trace.filter Action.isDownload =
      [Action.download "/srv/demo/build/out.bin" "out/out.bin"] ∧
    (main demoEnv demoFlags demoWorld).2.localFS "out/out.bin" = some [88] ∧
    demoFlagsTwoArtifacts.artifacts ≠ "" ∧
    sessionEstablished demoEnv demoFlagsTwoArtifacts demoWorld ∧
    (main demoEnv demoFlagsTwoArtifacts demoWorld).2.trace.filter Action.isDownload =
      [Action.download "/srv/demo/build/bin/app" "out/app",
        Action.download "/srv/demo/build/out.bin" "out/out.bin"] ∧
    (main demoEnv demoFlagsTwoArtifacts demoWorld).2.localFS "out/app" = some [] ∧
    (main demoEnv demoFlagsTwoArtifacts demoWorld).2.localFS "out/out.bin" = some [88] ∧
    filepathBase "bin/app" = "app" :=
  ⟨by decide, by decide,
    (downloads_each_name demoEnv demoFlags demoLocal demoRemote (by decide)
      (by decide)).1.trans (by decide),
    by decide, by decide, by decide,
    (downloads_each_name demoEnv demoFlagsTwoArtifacts demoLocal demoRemote (by decide)
      (by decide)).1.trans (by decide),
    by decide, by decide,
    (downloads_each_name demoEnv demoFlagsTwoArtifacts demoLocal demoRemote (by decide)
      (by decide)).2.2.2.2.2 ['b', 'i', 'n', '/'] ['a', 'p', 'p'] [] (by decide) (by decide)
      (Or.inr ⟨['b', 'i', 'n'], rfl⟩) (by simp)⟩

/-- C8: when the artifacts parameter is empty, on every run past session
establishment the artifact sequence is empty, no download is made, the local
files are as they were at the start, the line saying that no artifact was
specified is printed, and the run ends in Done with the Done report as its last
line. -/
theorem no_artifacts_no_download (env : Env) (f : Flags) (l : FileTable) (r : Remote)
    (ha : f.artifacts = "") (h : sessionEstablished env f (World.init l r)) :
    artifactNames f.artifacts = [] ∧
    (main env f (World.init l r)).2.trace.filter Action.isDownload = [] ∧
    (main env f (World.init l r)).2.localFS = l ∧
    noArtifactsLine ∈ (main env f (World.init l r)).2.stdout ∧
    (main env f (World.init l r)).1 = Outcome.done ∧
    (main env f (World.init l r)).2.stdout.getLast? = some doneReport := by
  have hn : artifactNames f.artifacts = [] := by simp [artifactNames, ha]
  refine ⟨hn, ?_, ?_, ?_, (main_done_iff env f _).2 h, main_stdout_of_established env f _ h⟩
  · rw [main_trace_of_established env f _ h]
    simp only [World.init, List.nil_append]
    rw [expectedCalls_downloads, hn]
    rfl
  · rw [main_of_established env f _ h]
    simp only [runDeferred, World.log]
    rw [pipeline_localFS_of_no_artifacts env f _ _ ha]
    simp only [connectResult]
    rw [(sshConnect_trace env _ _ _ _).2.1]
    rfl
  · rw [main_of_established env f _ h]
    simp only [runDeferred, World.log]
    exact pipeline_stdout_of_no_artifacts env f _ _ ha

/-- C8, witness: the sample run with an empty artifacts flag makes no download,
leaves the local target file absent, and ends in Done. -/
theorem no_artifacts_no_download_witness :
    demoFlagsNoArtifacts.artifacts = "" ∧
    sessionEstablished demoEnv demoFlagsNoArtifacts demoWorld ∧
    (main demoEnv demoFlagsNoArtifacts demoWorld).2.trace.filter Action.isDownload = [] ∧
    (main demoEnv demoFlagsNoArtifacts demoWorld).2.localFS = demoLocal ∧
    (main demoEnv demoFlagsNoArtifacts demoWorld).2.localFS "out/out.bin" = none ∧
    (main demoEnv demoFlagsNoArtifacts demoWorld).1 = Outcome.done :=
  ⟨rfl, by decide,
    (no_artifacts_no_download demoEnv demoFlagsNoArtifacts demoLocal demoRemote rfl
      (by decide)).2.1,
    (no_artifacts_no_download demoEnv demoFlagsNoArtifacts demoLocal demoRemote rfl
      (by decide)).2.2.1,
    by decide,
    (no_artifacts_no_download demoEnv demoFlagsNoArtifacts demoLocal demoRemote rfl
      (by decide)).2.2.2.2.1⟩

/-- C9: on every run past session establishment, with `B` the join of the
remote root and `build` (a path whose last element is `build` and whose parent
is the cleaned remote root), the calls of the run are: `sshConnect`, then
`mkdir -p B`, then the calls of the tree upload, then
`cd B && cmake .. -DCMAKE_BUILD_TYPE=b x`, then
`cd B && cmake --build . -- -j$(nproc)`, then the downloads, then the closing
of both connections. So outside the tree upload the remote commands are these
three, in this order, with the upload between the first and the second. -/
theorem driver_commands (env : Env) (f : Flags) (l : FileTable) (r : Remote)
    (h : sessionEstablished env f (World.init l r)) :
    pathBase (pathJoin [f.remoteDir, "build"]) = "build" ∧
    pathDir (pathJoin [f.remoteDir, "build"]) = pathClean f.remoteDir ∧
    (main env f (World.init l r)).2.trace =
      [Action.sshConnect (mergedHost env f (World.init l r))
          (mergedUser env f (World.init l r)) (mergedKey env f (World.init l r)),
        Action.run ("mkdir -p " ++ pathJoin [f.remoteDir, "build"])] ++
      uploadActions f.src f.remoteDir (visitedBeforeError (env.walk f.src)) ++
      [Action.run ("cd " ++ pathJoin [f.remoteDir, "build"] ++
          " && cmake .. -DCMAKE_BUILD_TYPE=" ++ f.buildType ++ " " ++ f.cmakeArgs),
        Action.run ("cd " ++ pathJoin [f.remoteDir, "build"] ++
          " && cmake --build . -- -j$(nproc)")] ++
      (artifactNames f.artifacts).map (fun n =>
        Action.download (pathJoin [pathJoin [f.remoteDir, "build"], n])
          (filepathJoin [mergedTargetDir env f (World.init l r), filepathBase n])) ++
      [Action.closeTransfer, Action.closeShell] := by
  have hr : f.remoteDir ≠ "" := h.1.2.1
  refine ⟨(pathJoin_build f.remoteDir hr).1, (pathJoin_build f.remoteDir hr).2, ?_⟩
  rw [main_trace_of_established env f _ h]
  simp only [World.init, List.nil_append, expectedCalls, mkdirCommand, configureCommand,
    buildCommand, remoteBuildDirOf, List.cons_append, List.append_assoc]
  rfl

/-- C9, witness: the sample run, with remote root `/srv/demo`, build type
`Release` and extra argument `-DWITH_TESTS=ON`. -/
theorem driver_commands_witness :
    sessionEstablished demoEnv demoFlags demoWorld ∧
    pathJoin [demoFlags.remoteDir, "build"] = "/srv/demo/build" ∧
    (main demoEnv demoFlags demoWorld).2.trace =
      [Action.sshConnect "build01" "dev" "/home/dev/.ssh/id_rsa",
        Action.run "mkdir -p /srv/demo/build",
        Action.run "mkdir -p /srv/demo", Action.upload "proj/a.txt" "/srv/demo/a.txt",
        Action.run "mkdir -p /srv/demo/sub",
        Action.upload "proj/sub/b.txt" "/srv/demo/sub/b.txt",
        Action.run "cd /srv/demo/build && cmake .. -DCMAKE_BUILD_TYPE=Release -DWITH_TESTS=ON",
        Action.run "cd /srv/demo/build && cmake --build . -- -j$(nproc)",
        Action.download "/srv/demo/build/out.bin" "out/out.bin",
        Action.closeTransfer, Action.closeShell] :=
  ⟨by decide, by decide,
    (driver_commands demoEnv demoFlags demoLocal demoRemote (by decide)).2.2.trans
      (by decide)⟩

/-- C10, the failing run: in the sample run with the shell connection refused,
`sshConnect` opens the file-transfer connection and then returns the dial
error; `main` ends with `log.Fatal` and the file-transfer connection is still
open when the process terminates, no call to close it having been made. -/
theorem dial_failure_leaves_transfer_open :
    (sshConnect dialRefusedEnv demoWorld "build01" "dev" "/home/dev/.ssh/id_rsa").1 =
      some "dial tcp: connection refused" ∧
    (main dialRefusedEnv demoFlags demoWorld).1 =
      Outcome.fatal "dial tcp: connection refused" ∧
    (main dialRefusedEnv demoFlags demoWorld).2.transferOpen = true ∧
    (main dialRefusedEnv demoFlags demoWorld).2.shellOpen = false ∧
    Action.closeTransfer ∉ (main dialRefusedEnv demoFlags demoWorld).2.trace := by
  decide

end RemoteBuild
